import Mathlib

/-!
Shallow embedding of the signal-generation core of the Trading-System
repository: the shared indicator library and position sizing of
`strategies/strategy_base.py` and the four strategy variants
(`ma101_strategy.py`, `donchian_strategy.py`, `swing_trading_strategy.py`,
`qullamaggie_htf_strategy.py`).

Modelling conventions:
* prices and volumes are `ℚ` (the source uses floats; no rounding is
  involved in any claim under study);
* a pandas column with NaN entries is modelled as `Option ℚ` per index:
  `none` stands for NaN/undefined.  A float comparison with a NaN operand
  is `False` in pandas, so the boolean comparison helpers below return
  `false` when either side is `none`;
* `rolling(window=w)` uses pandas' default `min_periods = w`, so a value
  is defined exactly when the trailing window holds `w` non-NaN entries;
* the only division sites whose float behaviour matters (RSI `gain/loss`,
  HTF `volume/avg_volume` and the pole move) are modelled case by case:
  `x/0 = +inf` for `x > 0` (which makes `>= threshold` comparisons true),
  `0/0 = NaN` (which makes them false).
-/

/-- One OHLCV bar.  The source frames are indexed by trading date; the
date is carried as an integer key (only monotonicity matters). -/
structure Bar where
  date : ℤ
  openPrice : ℚ
  high : ℚ
  low : ℚ
  close : ℚ
  volume : ℚ
deriving Repr, DecidableEq

/-- Column access: the close at row `t`, `none` out of range. -/
def closeAt (bars : List Bar) (t : Nat) : Option ℚ :=
  (bars.get? t).map (·.close)

/-- Column access: the high at row `t`. -/
def highAt (bars : List Bar) (t : Nat) : Option ℚ :=
  (bars.get? t).map (·.high)

/-- Column access: the low at row `t`. -/
def lowAt (bars : List Bar) (t : Nat) : Option ℚ :=
  (bars.get? t).map (·.low)

/-- Column access: the volume at row `t`. -/
def volumeAt (bars : List Bar) (t : Nat) : Option ℚ :=
  (bars.get? t).map (·.volume)

/-- `a < b` on possibly-NaN values: pandas comparisons with NaN are false. -/
def oltB (a b : Option ℚ) : Bool :=
  match a, b with
  | some x, some y => decide (x < y)
  | _, _ => false

/-- `a ≤ b` on possibly-NaN values: false when either side is NaN. -/
def oleB (a b : Option ℚ) : Bool :=
  match a, b with
  | some x, some y => decide (x ≤ y)
  | _, _ => false

/-- Combine two possibly-NaN values (float arithmetic propagates NaN). -/
def omap2 (f : ℚ → ℚ → ℚ) (a b : Option ℚ) : Option ℚ :=
  match a, b with
  | some x, some y => some (f x y)
  | _, _ => none

/-- Maximum of a list of rationals, `none` on the empty list
(`Series.rolling(w).max` over a full window). -/
def listMax : List ℚ → Option ℚ
  | [] => none
  | x :: xs => some (xs.foldl max x)

/-- Minimum of a list of rationals, `none` on the empty list. -/
def listMin : List ℚ → Option ℚ
  | [] => none
  | x :: xs => some (xs.foldl min x)

/-- The trailing window of width `w` ending at row `t` inclusive:
rows `t+1-w .. t` of the column. -/
def windowTo (xs : List ℚ) (w t : Nat) : List ℚ :=
  (xs.drop (t + 1 - w)).take w

/-- `col.rolling(window=w).mean()` at row `t` on a NaN-free column:
defined iff the window is full (`w ≤ t+1`) and the row exists. -/
def rollMeanAt (w : Nat) (xs : List ℚ) (t : Nat) : Option ℚ :=
  if 1 ≤ w ∧ w ≤ t + 1 ∧ t < xs.length then
    some ((windowTo xs w t).sum / w)
  else none

/-- `col.rolling(window=w).max()` at row `t` (window includes row `t`). -/
def rollMaxAt (w : Nat) (xs : List ℚ) (t : Nat) : Option ℚ :=
  if 1 ≤ w ∧ w ≤ t + 1 ∧ t < xs.length then
    listMax (windowTo xs w t)
  else none

/-- `col.shift(1).rolling(window=w).max()` at row `t`: the shift puts a NaN
at row 0, so with `min_periods = w` the value is defined iff `w ≤ t`, and
the window then covers rows `t-w .. t-1` of the original column — the
current row is excluded. -/
def shiftRollMaxAt (w : Nat) (xs : List ℚ) (t : Nat) : Option ℚ :=
  if 1 ≤ w ∧ w ≤ t ∧ t < xs.length then
    listMax ((xs.drop (t - w)).take w)
  else none

/-- `col.shift(1).rolling(window=w).min()` at row `t` (rows `t-w .. t-1`). -/
def shiftRollMinAt (w : Nat) (xs : List ℚ) (t : Nat) : Option ℚ :=
  if 1 ≤ w ∧ w ≤ t ∧ t < xs.length then
    listMin ((xs.drop (t - w)).take w)
  else none

/-- Tail of `close.ewm(span=s, adjust=False).mean()`: `e_t = α·x_t +
(1-α)·e_(t-1)` given the previous smoothed value. -/
def emaFrom (a : ℚ) (e : ℚ) : List ℚ → List ℚ
  | [] => []
  | x :: xs =>
    let e2 := a * x + (1 - a) * e
    e2 :: emaFrom a e2 xs

/-- `close.ewm(span=s, adjust=False).mean()`: seeded with the first input,
smoothing factor `α = 2/(s+1)`; defined on every row. -/
def emaList (span : Nat) (xs : List ℚ) : List ℚ :=
  match xs with
  | [] => []
  | x :: rest => x :: emaFrom (2 / ((span : ℚ) + 1)) x rest

/-- The EMA column value at row `t`. -/
def emaAt (span : Nat) (xs : List ℚ) (t : Nat) : Option ℚ :=
  (emaList span xs).get? t

/-- The SMA column value at row `t` (`close.rolling(w).mean()`). -/
def smaAt (w : Nat) (xs : List ℚ) (t : Nat) : Option ℚ :=
  rollMeanAt w xs t

/-- Tail of the RSI gain column `delta.where(delta > 0, 0)` given the
previous close: a non-positive delta contributes `0`. -/
def gainsFrom (prev : ℚ) : List ℚ → List ℚ
  | [] => []
  | c :: cs => max (c - prev) 0 :: gainsFrom c cs

/-- RSI gain column.  Row 0 has a NaN delta; `NaN > 0` is false, so
`.where(delta > 0, 0)` turns it into `0`. -/
def gains : List ℚ → List ℚ
  | [] => []
  | c :: cs => 0 :: gainsFrom c cs

/-- Tail of the RSI loss column `(-delta).where(delta < 0, 0)`. -/
def lossesFrom (prev : ℚ) : List ℚ → List ℚ
  | [] => []
  | c :: cs => max (prev - c) 0 :: lossesFrom c cs

/-- RSI loss column (row 0 is `0`, as for `gains`). -/
def losses : List ℚ → List ℚ
  | [] => []
  | c :: cs => 0 :: lossesFrom c cs

/-- `StrategyBase._calculate_rsi` at row `t`: trailing means of gains and
losses, `rs = gain/loss`, `rsi = 100 - 100/(1+rs)`.  Float cases at the
division: `avg_loss > 0` gives the finite formula; `avg_loss = 0` with
`avg_gain ≠ 0` gives `rs = ±inf` hence `rsi = 100`; `0/0` is NaN. -/
def rsiAt (period : Nat) (closes : List ℚ) (t : Nat) : Option ℚ :=
  match rollMeanAt period (gains closes) t,
        rollMeanAt period (losses closes) t with
  | some g, some l =>
    if l ≠ 0 then some (100 - 100 / (1 + g / l))
    else if g ≠ 0 then some 100
    else none
  | _, _ => none

/-- Tail of the true-range column given the previous close:
`max(high-low, |high-prev_close|, |low-prev_close|)` (the row-wise
`DataFrame.max` skips nothing here, all three are defined). -/
def trFrom (pc : ℚ) : List Bar → List ℚ
  | [] => []
  | b :: bs => max (b.high - b.low) (max |b.high - pc| |b.low - pc|) :: trFrom b.close bs

/-- True-range column.  At row 0 the shifted close is NaN, so the
row-wise `max` (which skips NaN) is just `high - low`. -/
def trList : List Bar → List ℚ
  | [] => []
  | b :: bs => (b.high - b.low) :: trFrom b.close bs

/-- `StrategyBase._calculate_atr` at row `t`: trailing mean of true range. -/
def atrAt (period : Nat) (bars : List Bar) (t : Nat) : Option ℚ :=
  rollMeanAt period (trList bars) t

/-- Python `int()` applied to a rational: truncation toward zero. -/
def pyInt (q : ℚ) : ℤ :=
  if 0 ≤ q then ⌊q⌋ else ⌈q⌉

/-- `StrategyBase.calculate_position_size`.  `risk_pct` comes from the
strategy definition registry and `max_position_pct` from `RISK_CONFIG`
(files not part of the core sources); both are passed here as parameters,
matching the spec signature `position_size(entry, stop, equity, risk_pct,
max_position_pct)`. -/
def calculatePositionSize (riskPct maxPositionPct entry stop equity : ℚ) : ℤ :=
  let riskDollars := equity * riskPct
  let riskPerShare := |entry - stop|
  if riskPerShare = 0 then 0
  else
    let shares := pyInt (riskDollars / riskPerShare)
    let maxShares := pyInt (equity * maxPositionPct / entry)
    min shares maxShares

namespace MA101

/-- Configuration of `MA101Strategy.__init__` (defaults 200/10/30/14/70/10). -/
structure Cfg where
  regimeMa : Nat := 200
  fastEma : Nat := 10
  slowEma : Nat := 30
  rsiPeriod : Nat := 14
  rsiOverbought : ℚ := 70
  stopMa : Nat := 10
deriving Repr, DecidableEq

/-- The close column of a bar series. -/
def closes (bars : List Bar) : List ℚ := bars.map (·.close)

/-- Regime filter mask at row `t`: `close > sma_(regime_ma)`. -/
def regimeAt (cfg : Cfg) (bars : List Bar) (t : Nat) : Bool :=
  oltB (smaAt cfg.regimeMa (closes bars) t) (closeAt bars t)

/-- Crossover mask at row `t`: `ema_fast.shift(1) <= ema_slow.shift(1)` and
`ema_fast > ema_slow`; at row 0 the shifted comparison is NaN-false. -/
def crossAboveAt (cfg : Cfg) (bars : List Bar) (t : Nat) : Bool :=
  match t with
  | 0 => false
  | t' + 1 =>
    oleB (emaAt cfg.fastEma (closes bars) t') (emaAt cfg.slowEma (closes bars) t') &&
    oltB (emaAt cfg.slowEma (closes bars) (t' + 1)) (emaAt cfg.fastEma (closes bars) (t' + 1))

/-- `MA101Strategy.generate_signals` signal column at row `t`. -/
def signalAt (cfg : Cfg) (bars : List Bar) (t : Nat) : ℤ :=
  if crossAboveAt cfg bars t && regimeAt cfg bars t then 1 else 0

/-- Entry-price column at row `t` (written only on signal rows). -/
def entryAt (cfg : Cfg) (bars : List Bar) (t : Nat) : Option ℚ :=
  if crossAboveAt cfg bars t && regimeAt cfg bars t then closeAt bars t else none

/-- Stop-price column at row `t`: the stop-period EMA on signal rows. -/
def stopAt (cfg : Cfg) (bars : List Bar) (t : Nat) : Option ℚ :=
  if crossAboveAt cfg bars t && regimeAt cfg bars t then
    emaAt cfg.stopMa (closes bars) t
  else none

/-- The dictionary returned by `MA101Strategy.check_current_signal`. -/
structure Record where
  date : ℤ
  signal : String
  entryPrice : Option ℚ
  stopPrice : Option ℚ
  riskPerShare : Option ℚ
  atr : Option ℚ
deriving Repr, DecidableEq

/-- `MA101Strategy.check_current_signal`: evaluates the last row; note
`risk_per_share = entry_price - stop_price` with no absolute value. -/
def checkCurrentSignal (cfg : Cfg) (bars : List Bar) : Option Record :=
  if h : bars = [] then none
  else
    if signalAt cfg bars (bars.length - 1) = 1 then
      some
        { date := (bars.getLast h).date
          signal := "LONG"
          entryPrice := entryAt cfg bars (bars.length - 1)
          stopPrice := stopAt cfg bars (bars.length - 1)
          riskPerShare := omap2 (fun e s => e - s) (entryAt cfg bars (bars.length - 1)) (stopAt cfg bars (bars.length - 1))
          atr := atrAt 14 bars (bars.length - 1) }
    else none

end MA101

namespace Donchian

/-- Configuration of `DonchianStrategy.__init__` (defaults 50/25/14/3.0). -/
structure Cfg where
  entryPeriod : Nat := 50
  exitPeriod : Nat := 25
  atrPeriod : Nat := 14
  atrStopMultiple : ℚ := 3
  useAtrStop : Bool := false
  allowShorts : Bool := false
deriving Repr, DecidableEq

/-- Entry channel high at row `t`: `high.shift(1).rolling(entry_period).max()`. -/
def entryHighAt (cfg : Cfg) (bars : List Bar) (t : Nat) : Option ℚ :=
  shiftRollMaxAt cfg.entryPeriod (bars.map (·.high)) t

/-- Entry channel low at row `t`: `low.shift(1).rolling(entry_period).min()`. -/
def entryLowAt (cfg : Cfg) (bars : List Bar) (t : Nat) : Option ℚ :=
  shiftRollMinAt cfg.entryPeriod (bars.map (·.low)) t

/-- Exit channel low at row `t` (shorter period, long-side stop). -/
def exitLowAt (cfg : Cfg) (bars : List Bar) (t : Nat) : Option ℚ :=
  shiftRollMinAt cfg.exitPeriod (bars.map (·.low)) t

/-- Exit channel high at row `t` (short-side stop). -/
def exitHighAt (cfg : Cfg) (bars : List Bar) (t : Nat) : Option ℚ :=
  shiftRollMaxAt cfg.exitPeriod (bars.map (·.high)) t

/-- Long-breakout mask at row `t`: `close > donchian_high_(entry_period)`. -/
def longBreakoutAt (cfg : Cfg) (bars : List Bar) (t : Nat) : Bool :=
  oltB (entryHighAt cfg bars t) (closeAt bars t)

/-- Short-breakout mask at row `t`: `close < donchian_low_(entry_period)`. -/
def shortBreakoutAt (cfg : Cfg) (bars : List Bar) (t : Nat) : Bool :=
  oltB (closeAt bars t) (entryLowAt cfg bars t)

/-- Signal column of `DonchianStrategy.generate_signals` at row `t`.  The
source writes the long rows first and the short rows afterwards, so a row
matched by both masks ends up at -1; that ordering is kept here. -/
def signalAt (cfg : Cfg) (bars : List Bar) (t : Nat) : ℤ :=
  if cfg.allowShorts && shortBreakoutAt cfg bars t then -1
  else if longBreakoutAt cfg bars t then 1
  else 0

/-- Long-side stop value at row `t`: `close - k·ATR` in ATR-stop mode,
otherwise the exit channel low. -/
def stopLongAt (cfg : Cfg) (bars : List Bar) (t : Nat) : Option ℚ :=
  if cfg.useAtrStop then
    omap2 (fun c a => c - cfg.atrStopMultiple * a) (closeAt bars t) (atrAt cfg.atrPeriod bars t)
  else exitLowAt cfg bars t

/-- Short-side stop value at row `t`. -/
def stopShortAt (cfg : Cfg) (bars : List Bar) (t : Nat) : Option ℚ :=
  if cfg.useAtrStop then
    omap2 (fun c a => c + cfg.atrStopMultiple * a) (closeAt bars t) (atrAt cfg.atrPeriod bars t)
  else exitHighAt cfg bars t

/-- Entry-price column at row `t`: the close on any signal row. -/
def entryAt (cfg : Cfg) (bars : List Bar) (t : Nat) : Option ℚ :=
  if signalAt cfg bars t ≠ 0 then closeAt bars t else none

/-- Stop-price column at row `t`. -/
def stopAt (cfg : Cfg) (bars : List Bar) (t : Nat) : Option ℚ :=
  if cfg.allowShorts && shortBreakoutAt cfg bars t then stopShortAt cfg bars t
  else if longBreakoutAt cfg bars t then stopLongAt cfg bars t
  else none

/-- Reason column at row `t`. -/
def reasonAt (cfg : Cfg) (bars : List Bar) (t : Nat) : String :=
  if cfg.allowShorts && shortBreakoutAt cfg bars t then
    toString cfg.entryPeriod ++ "-day breakdown low"
  else if longBreakoutAt cfg bars t then
    toString cfg.entryPeriod ++ "-day breakout high"
  else ""

/-- One row of the frame returned by `DonchianStrategy.generate_signals`. -/
structure SignalRow where
  signal : ℤ
  entryPrice : Option ℚ
  stopPrice : Option ℚ
  reason : String
deriving Repr, DecidableEq

/-- `DonchianStrategy.generate_signals`: the per-row signal columns,
aligned with the input index. -/
def generateSignals (cfg : Cfg) (bars : List Bar) : List SignalRow :=
  (List.range bars.length).map fun t =>
    { signal := signalAt cfg bars t
      entryPrice := entryAt cfg bars t
      stopPrice := stopAt cfg bars t
      reason := reasonAt cfg bars t }

/-- The dictionary returned by `DonchianStrategy.check_current_signal`. -/
structure Record where
  date : ℤ
  signal : String
  entryPrice : Option ℚ
  stopPrice : Option ℚ
  reason : String
  riskPerShare : Option ℚ
  atr : Option ℚ
deriving Repr, DecidableEq

/-- `DonchianStrategy.check_current_signal`: evaluates the last row; here
`risk_per_share = abs(entry_price - stop_price)`. -/
def checkCurrentSignal (cfg : Cfg) (bars : List Bar) : Option Record :=
  if h : bars = [] then none
  else
    if signalAt cfg bars (bars.length - 1) ≠ 0 then
      some
        { date := (bars.getLast h).date
          signal := if signalAt cfg bars (bars.length - 1) = 1 then "LONG" else "SHORT"
          entryPrice := entryAt cfg bars (bars.length - 1)
          stopPrice := stopAt cfg bars (bars.length - 1)
          reason := reasonAt cfg bars (bars.length - 1)
          riskPerShare := omap2 (fun e s => |e - s|) (entryAt cfg bars (bars.length - 1)) (stopAt cfg bars (bars.length - 1))
          atr := atrAt cfg.atrPeriod bars (bars.length - 1) }
    else none

end Donchian

namespace Swing

/-- Configuration of `SwingTradingStrategy.__init__` (defaults
5/20/50/200/14/70/14, entry mode `all`). -/
structure Cfg where
  fastEma : Nat := 5
  slowEma : Nat := 20
  ma50 : Nat := 50
  ma200 : Nat := 200
  rsiPeriod : Nat := 14
  rsiProfitTarget : ℚ := 70
  atrPeriod : Nat := 14
  entryMode : String := "all"
deriving Repr, DecidableEq

/-- The close column of a bar series. -/
def closes (bars : List Bar) : List ℚ := bars.map (·.close)

/-- Crossover mask at row `t` (pattern 1), identical in shape to MA101. -/
def crossAboveAt (cfg : Cfg) (bars : List Bar) (t : Nat) : Bool :=
  match t with
  | 0 => false
  | t' + 1 =>
    oleB (emaAt cfg.fastEma (closes bars) t') (emaAt cfg.slowEma (closes bars) t') &&
    oltB (emaAt cfg.slowEma (closes bars) (t' + 1)) (emaAt cfg.fastEma (closes bars) (t' + 1))

/-- 50-day dip-buy mask at row `t` (pattern 2): low touches the 50-SMA,
close back above it, and the previous close was above the previous SMA. -/
def dip50At (cfg : Cfg) (bars : List Bar) (t : Nat) : Bool :=
  oleB (lowAt bars t) (smaAt cfg.ma50 (closes bars) t) &&
  oltB (smaAt cfg.ma50 (closes bars) t) (closeAt bars t) &&
  (match t with
   | 0 => false
   | t' + 1 => oltB (smaAt cfg.ma50 (closes bars) t') (closeAt bars t'))

/-- 200-day dip-buy mask at row `t` (pattern 3). -/
def dip200At (cfg : Cfg) (bars : List Bar) (t : Nat) : Bool :=
  oleB (lowAt bars t) (smaAt cfg.ma200 (closes bars) t) &&
  oltB (smaAt cfg.ma200 (closes bars) t) (closeAt bars t) &&
  (match t with
   | 0 => false
   | t' + 1 => oltB (smaAt cfg.ma200 (closes bars) t') (closeAt bars t'))

/-- Whether pattern 1 is evaluated: `entry_mode in ['crossover', 'all']`. -/
def crossActive (cfg : Cfg) : Bool :=
  cfg.entryMode = "crossover" || cfg.entryMode = "all"

/-- Whether pattern 2 is evaluated: `entry_mode in ['dip_50', 'all']`. -/
def dip50Active (cfg : Cfg) : Bool :=
  cfg.entryMode = "dip_50" || cfg.entryMode = "all"

/-- Whether pattern 3 is evaluated: `entry_mode in ['dip_200', 'all']`. -/
def dip200Active (cfg : Cfg) : Bool :=
  cfg.entryMode = "dip_200" || cfg.entryMode = "all"

/-- Row `t` is written by pattern 1. -/
def writesCross (cfg : Cfg) (bars : List Bar) (t : Nat) : Bool :=
  crossActive cfg && crossAboveAt cfg bars t

/-- Row `t` is written by pattern 2: its mask holds and the row is still
flat (`df['signal'] == 0`) after pattern 1. -/
def writesDip50 (cfg : Cfg) (bars : List Bar) (t : Nat) : Bool :=
  dip50Active cfg && dip50At cfg bars t && !writesCross cfg bars t

/-- Row `t` is written by pattern 3: its mask holds and the row is still
flat after patterns 1 and 2. -/
def writesDip200 (cfg : Cfg) (bars : List Bar) (t : Nat) : Bool :=
  dip200Active cfg && dip200At cfg bars t &&
  !writesCross cfg bars t && !writesDip50 cfg bars t

/-- Signal column of `SwingTradingStrategy.generate_signals` at row `t`. -/
def signalAt (cfg : Cfg) (bars : List Bar) (t : Nat) : ℤ :=
  if writesCross cfg bars t || writesDip50 cfg bars t || writesDip200 cfg bars t then 1
  else 0

/-- Entry-type column at row `t` (`''` on flat rows). -/
def entryTypeAt (cfg : Cfg) (bars : List Bar) (t : Nat) : String :=
  if writesCross cfg bars t then "crossover"
  else if writesDip50 cfg bars t then "dip_50"
  else if writesDip200 cfg bars t then "dip_200"
  else ""

/-- Entry-price column at row `t`: the close on any signal row. -/
def entryAt (cfg : Cfg) (bars : List Bar) (t : Nat) : Option ℚ :=
  if signalAt cfg bars t = 1 then closeAt bars t else none

/-- Stop-price column at row `t`: slow EMA for pattern 1, 98% of the
50-SMA for pattern 2, 97% of the 200-SMA for pattern 3. -/
def stopAt (cfg : Cfg) (bars : List Bar) (t : Nat) : Option ℚ :=
  if writesCross cfg bars t then emaAt cfg.slowEma (closes bars) t
  else if writesDip50 cfg bars t then
    (smaAt cfg.ma50 (closes bars) t).map (· * (98 / 100))
  else if writesDip200 cfg bars t then
    (smaAt cfg.ma200 (closes bars) t).map (· * (97 / 100))
  else none

/-- The dictionary returned by `SwingTradingStrategy.check_current_signal`. -/
structure Record where
  date : ℤ
  signal : String
  entryPrice : Option ℚ
  stopPrice : Option ℚ
  entryType : String
  riskPerShare : Option ℚ
  atr : Option ℚ
  rsi : Option ℚ
deriving Repr, DecidableEq

/-- `SwingTradingStrategy.check_current_signal`; `risk_per_share` is again
`entry_price - stop_price` without an absolute value. -/
def checkCurrentSignal (cfg : Cfg) (bars : List Bar) : Option Record :=
  if h : bars = [] then none
  else
    if signalAt cfg bars (bars.length - 1) = 1 then
      some
        { date := (bars.getLast h).date
          signal := "LONG"
          entryPrice := entryAt cfg bars (bars.length - 1)
          stopPrice := stopAt cfg bars (bars.length - 1)
          entryType := entryTypeAt cfg bars (bars.length - 1)
          riskPerShare := omap2 (fun e s => e - s) (entryAt cfg bars (bars.length - 1)) (stopAt cfg bars (bars.length - 1))
          atr := atrAt cfg.atrPeriod bars (bars.length - 1)
          rsi := rsiAt cfg.rsiPeriod (closes bars) (bars.length - 1) }
    else none

end Swing

namespace HTF

/-- Configuration of `QullamaggieHTFStrategy.__init__`.  The 10-EMA,
20-SMA, 50-SMA and the 20-bar pattern windows are hardcoded in the
source; only these five knobs are configurable. -/
structure Cfg where
  volumeLookback : Nat := 20
  volumeBreakoutMultiplier : ℚ := 3 / 2
  minDollarVolume : ℚ := 50000000
  poleLookback : Nat := 40
  minPoleMove : ℚ := 1 / 2
  maxFlagRetrace : ℚ := 1 / 4
deriving Repr, DecidableEq

/-- The close column of a bar series. -/
def closes (bars : List Bar) : List ℚ := bars.map (·.close)

/-- The `close * volume` dollar-volume column. -/
def dollarVols (bars : List Bar) : List ℚ := bars.map fun b => b.close * b.volume

/-- `avg_volume` column at row `t`. -/
def avgVolumeAt (cfg : Cfg) (bars : List Bar) (t : Nat) : Option ℚ :=
  rollMeanAt cfg.volumeLookback (bars.map (·.volume)) t

/-- `avg_dollar_volume` column at row `t`. -/
def avgDollarVolumeAt (cfg : Cfg) (bars : List Bar) (t : Nat) : Option ℚ :=
  rollMeanAt cfg.volumeLookback (dollarVols bars) t

/-- `volume_ratio = volume / avg_volume` at row `t`; `none` stands for
NaN or an infinite float (zero average volume). -/
def volumeRatioAt (cfg : Cfg) (bars : List Bar) (t : Nat) : Option ℚ :=
  match avgVolumeAt cfg bars t, volumeAt bars t with
  | some a, some v => if a = 0 then none else some (v / a)
  | _, _ => none

/-- `high_20` column at row `t` (unshifted 20-bar rolling maximum). -/
def high20At (bars : List Bar) (t : Nat) : Option ℚ :=
  rollMaxAt 20 (bars.map (·.high)) t

/-- Filter 1 mask: `avg_dollar_volume >= min_dollar_volume`. -/
def liquidityOkAt (cfg : Cfg) (bars : List Bar) (t : Nat) : Bool :=
  oleB (some cfg.minDollarVolume) (avgDollarVolumeAt cfg bars t)

/-- Filter 2 mask: `close > sma_50`. -/
def above50maAt (bars : List Bar) (t : Nat) : Bool :=
  oltB (smaAt 50 (closes bars) t) (closeAt bars t)

/-- Filter 3 mask: `pole_move = close/close.shift(pole_lookback) - 1 >=
min_pole_move`.  Float cases when the shifted close is zero: `c/0` is
`+inf` for `c > 0` (the comparison is then true) and `0/0` is NaN. -/
def strongPoleAt (cfg : Cfg) (bars : List Bar) (t : Nat) : Bool :=
  match closeAt bars (t - cfg.poleLookback), closeAt bars t with
  | some p, some c =>
    if cfg.poleLookback ≤ t then
      if p = 0 then decide (0 < c) else decide (cfg.minPoleMove ≤ c / p - 1)
    else false
  | _, _ => false

/-- The `pole_move` column value at row `t` as a rational (`none` for the
NaN prefix and for an infinite float from division by a zero close). -/
def poleMoveAt (cfg : Cfg) (bars : List Bar) (t : Nat) : Option ℚ :=
  match closeAt bars (t - cfg.poleLookback), closeAt bars t with
  | some p, some c =>
    if cfg.poleLookback ≤ t ∧ p ≠ 0 then some (c / p - 1) else none
  | _, _ => none

/-- Filter 4 mask: `close >= high_20 * 0.90`. -/
def nearHighsAt (bars : List Bar) (t : Nat) : Bool :=
  oleB ((high20At bars t).map (· * (90 / 100))) (closeAt bars t)

/-- Filter 5 mask: `close >= ema_10` and `close >= sma_20`. -/
def tightAt (bars : List Bar) (t : Nat) : Bool :=
  oleB (emaAt 10 (closes bars) t) (closeAt bars t) &&
  oleB (smaAt 20 (closes bars) t) (closeAt bars t)

/-- Entry-trigger mask: `high > high_20.shift(1)` (NaN-false at row 0). -/
def breakoutAt (bars : List Bar) (t : Nat) : Bool :=
  match t with
  | 0 => false
  | t' + 1 => oltB (high20At bars t') (highAt bars (t' + 1))

/-- Volume-confirmation mask: `volume_ratio >= volume_breakout_multiplier`.
Float cases when the average volume is zero: `v/0 = +inf` for `v > 0`
(comparison true), `0/0` NaN and `v/0 = -inf` for `v < 0` (false). -/
def volumeConfirmationAt (cfg : Cfg) (bars : List Bar) (t : Nat) : Bool :=
  match avgVolumeAt cfg bars t, volumeAt bars t with
  | some a, some v =>
    if a = 0 then decide (0 < v)
    else decide (cfg.volumeBreakoutMultiplier ≤ v / a)
  | _, _ => false

/-- The combined `htf_signal` mask of all seven source conditions. -/
def htfMaskAt (cfg : Cfg) (bars : List Bar) (t : Nat) : Bool :=
  liquidityOkAt cfg bars t &&
  above50maAt bars t &&
  strongPoleAt cfg bars t &&
  nearHighsAt bars t &&
  tightAt bars t &&
  breakoutAt bars t &&
  volumeConfirmationAt cfg bars t

/-- Signal column of `QullamaggieHTFStrategy.generate_signals` at row `t`. -/
def signalAt (cfg : Cfg) (bars : List Bar) (t : Nat) : ℤ :=
  if htfMaskAt cfg bars t then 1 else 0

/-- Entry-price column at row `t`: the bar's own high (buy the breakout). -/
def entryAt (cfg : Cfg) (bars : List Bar) (t : Nat) : Option ℚ :=
  if htfMaskAt cfg bars t then highAt bars t else none

/-- Stop-price column at row `t`: the bar's own low. -/
def stopAt (cfg : Cfg) (bars : List Bar) (t : Nat) : Option ℚ :=
  if htfMaskAt cfg bars t then lowAt bars t else none

/-- The dictionary returned by `QullamaggieHTFStrategy.check_current_signal`
(`pole_move_pct` is kept numerically: the pole move times 100). -/
structure Record where
  date : ℤ
  signal : String
  entryPrice : Option ℚ
  stopPrice : Option ℚ
  riskPerShare : Option ℚ
  volumeRatioField : Option ℚ
  dollarVolume : Option ℚ
  poleMovePct : Option ℚ
deriving Repr, DecidableEq

/-- `QullamaggieHTFStrategy.check_current_signal`; `risk_per_share` is
`entry_price - stop_price` without an absolute value. -/
def checkCurrentSignal (cfg : Cfg) (bars : List Bar) : Option Record :=
  if h : bars = [] then none
  else
    if signalAt cfg bars (bars.length - 1) = 1 then
      some
        { date := (bars.getLast h).date
          signal := "LONG"
          entryPrice := entryAt cfg bars (bars.length - 1)
          stopPrice := stopAt cfg bars (bars.length - 1)
          riskPerShare := omap2 (fun e s => e - s) (entryAt cfg bars (bars.length - 1)) (stopAt cfg bars (bars.length - 1))
          volumeRatioField := volumeRatioAt cfg bars (bars.length - 1)
          dollarVolume := avgDollarVolumeAt cfg bars (bars.length - 1)
          poleMovePct := (poleMoveAt cfg bars (bars.length - 1)).map (· * 100) }
    else none

end HTF

/-- The Bar Series well-formedness condition from the data model:
strictly increasing dates. -/
def datesStrictMono (bars : List Bar) : Prop :=
  List.Chain' (fun a b => a.date < b.date) bars

/-- A constant-price bar with zero volume, for concrete test inputs. -/
def mkBar (c : ℚ) : Bar :=
  { date := 0, openPrice := c, high := c, low := c, close := c, volume := 0 }

/-- Concrete input refuting C2: eight bars at 1, three bars at 30, then a
close at 15.  On the last bar the fast (span 8) EMA crosses above the
reactive slow (span 1) EMA while the close sits far below the span-2 stop
EMA, and the close is still above the 12-bar regime SMA. -/
def c2bars : List Bar :=
  ([1, 1, 1, 1, 1, 1, 1, 1, 30, 30, 30, 15] : List ℚ).map mkBar

/-- MA101 configuration used by the C2 counterexample. -/
def c2cfg : MA101.Cfg :=
  { regimeMa := 12, fastEma := 8, slowEma := 1, stopMa := 2 }

/-- Concrete malformed input for C9: dates 3, 1, 2 are not monotone. -/
def c9bars : List Bar :=
  [{ date := 3, openPrice := 10, high := 11, low := 9, close := 10, volume := 100 },
   { date := 1, openPrice := 10, high := 12, low := 9, close := 11, volume := 100 },
   { date := 2, openPrice := 11, high := 13, low := 10, close := 12, volume := 100 }]

/-- Two rising bars: the second closes above the first bar's high, so a
1-period Donchian channel fires a long signal there. -/
def riseBars : List Bar :=
  [{ date := 0, openPrice := 1, high := 2, low := 1, close := 1, volume := 10 },
   { date := 1, openPrice := 2, high := 4, low := 2, close := 3, volume := 10 }]

/-- A 1/1 Donchian configuration for small concrete inputs. -/
def donTinyCfg : Donchian.Cfg :=
  { entryPeriod := 1, exitPeriod := 1, atrPeriod := 1 }

/-- Twenty constant closes: every delta is zero, so over any RSI window
both the average gain and the average loss are zero. -/
def c5flat : List ℚ :=
  [10, 10, 10, 10, 10, 10, 10, 10, 10, 10, 10, 10, 10, 10, 10, 10, 10, 10, 10, 10]

/-- Twenty strictly rising closes: every delta is +1, so the average loss
is zero while the average gain is positive. -/
def c5rise : List ℚ :=
  [0, 1, 2, 3, 4, 5, 6, 7, 8, 9, 10, 11, 12, 13, 14, 15, 16, 17, 18, 19]

/-- A constant-price bar with a chosen volume. -/
def mkBarV (c v : ℚ) : Bar :=
  { date := 0, openPrice := c, high := c, low := c, close := c, volume := v }

/-- A small HTF configuration (2-bar volume window and pole) for concrete
firing inputs; the 10-EMA, 20-SMA, 50-SMA windows stay hardcoded. -/
def htfCfg : HTF.Cfg :=
  { volumeLookback := 2, volumeBreakoutMultiplier := 3 / 2, minDollarVolume := 1,
    poleLookback := 2, minPoleMove := 1 / 2 }

/-- Fifty flat bars (close 10, volume 10) followed by a breakout bar
(high 21, close 20, volume 30): all seven HTF filters hold on bar 50. -/
def htfBars : List Bar :=
  (([10, 10, 10, 10, 10, 10, 10, 10, 10, 10,
     10, 10, 10, 10, 10, 10, 10, 10, 10, 10,
     10, 10, 10, 10, 10, 10, 10, 10, 10, 10,
     10, 10, 10, 10, 10, 10, 10, 10, 10, 10,
     10, 10, 10, 10, 10, 10, 10, 10, 10, 10] : List ℚ).map (fun c => mkBarV c 10)) ++
  [{ date := 50, openPrice := 10, high := 21, low := 9, close := 20, volume := 30 }]

/-! ### Helper lemmas about the list-level building blocks -/

theorem le_foldl_max (xs : List ℚ) (acc : ℚ) : acc ≤ xs.foldl max acc := by
  induction xs generalizing acc with
  | nil => simp
  | cons x xs ih => exact le_trans (le_max_left _ _) (ih _)

theorem foldl_max_le {xs : List ℚ} {a : ℚ} (ha : a ∈ xs) (acc : ℚ) :
    a ≤ xs.foldl max acc := by
  induction xs generalizing acc with
  | nil => cases ha
  | cons x xs ih =>
    rw [List.foldl_cons]
    rcases List.mem_cons.1 ha with h | h
    · subst h
      exact le_trans (le_max_right _ _) (le_foldl_max _ _)
    · exact ih h _

theorem foldl_max_mem (xs : List ℚ) (acc : ℚ) :
    xs.foldl max acc = acc ∨ xs.foldl max acc ∈ xs := by
  induction xs generalizing acc with
  | nil => left; rfl
  | cons x xs ih =>
    rw [List.foldl_cons]
    rcases ih (max acc x) with h | h
    · rcases le_total acc x with hx | hx
      · right; rw [h, max_eq_right hx]; exact List.mem_cons_self x xs
      · left; rw [h, max_eq_left hx]
    · right; exact List.mem_cons_of_mem x h

theorem listMax_isSome {xs : List ℚ} (h : xs ≠ []) : ∃ m, listMax xs = some m := by
  cases xs with
  | nil => exact absurd rfl h
  | cons x xs => exact ⟨_, rfl⟩

theorem le_listMax {xs : List ℚ} {m a : ℚ} (hm : listMax xs = some m) (ha : a ∈ xs) :
    a ≤ m := by
  cases xs with
  | nil => cases ha
  | cons x xs =>
    have hm' : xs.foldl max x = m := by simpa [listMax] using hm
    rcases List.mem_cons.1 ha with h | h
    · subst h; exact hm' ▸ le_foldl_max _ _
    · exact hm' ▸ foldl_max_le h _

theorem listMax_mem {xs : List ℚ} {m : ℚ} (hm : listMax xs = some m) : m ∈ xs := by
  cases xs with
  | nil => simp [listMax] at hm
  | cons x xs =>
    have hm' : xs.foldl max x = m := by simpa [listMax] using hm
    rcases foldl_max_mem xs x with h | h
    · have : m = x := by rw [← hm', h]
      rw [this]; exact List.mem_cons_self x xs
    · exact List.mem_cons_of_mem x (hm' ▸ h)

theorem foldl_min_le_init (xs : List ℚ) (acc : ℚ) : xs.foldl min acc ≤ acc := by
  induction xs generalizing acc with
  | nil => simp
  | cons x xs ih => exact le_trans (ih _) (min_le_left _ _)

theorem foldl_min_le {xs : List ℚ} {a : ℚ} (ha : a ∈ xs) (acc : ℚ) :
    xs.foldl min acc ≤ a := by
  induction xs generalizing acc with
  | nil => cases ha
  | cons x xs ih =>
    rw [List.foldl_cons]
    rcases List.mem_cons.1 ha with h | h
    · subst h
      exact le_trans (foldl_min_le_init _ _) (min_le_right _ _)
    · exact ih h _

theorem foldl_min_mem (xs : List ℚ) (acc : ℚ) :
    xs.foldl min acc = acc ∨ xs.foldl min acc ∈ xs := by
  induction xs generalizing acc with
  | nil => left; rfl
  | cons x xs ih =>
    rw [List.foldl_cons]
    rcases ih (min acc x) with h | h
    · rcases le_total acc x with hx | hx
      · left; rw [h, min_eq_left hx]
      · right; rw [h, min_eq_right hx]; exact List.mem_cons_self x xs
    · right; exact List.mem_cons_of_mem x h

theorem listMin_isSome {xs : List ℚ} (h : xs ≠ []) : ∃ m, listMin xs = some m := by
  cases xs with
  | nil => exact absurd rfl h
  | cons x xs => exact ⟨_, rfl⟩

theorem listMin_le {xs : List ℚ} {m a : ℚ} (hm : listMin xs = some m) (ha : a ∈ xs) :
    m ≤ a := by
  cases xs with
  | nil => cases ha
  | cons x xs =>
    have hm' : xs.foldl min x = m := by simpa [listMin] using hm
    rcases List.mem_cons.1 ha with h | h
    · subst h; exact hm' ▸ foldl_min_le_init _ _
    · exact hm' ▸ foldl_min_le h _

theorem listMin_mem {xs : List ℚ} {m : ℚ} (hm : listMin xs = some m) : m ∈ xs := by
  cases xs with
  | nil => simp [listMin] at hm
  | cons x xs =>
    have hm' : xs.foldl min x = m := by simpa [listMin] using hm
    rcases foldl_min_mem xs x with h | h
    · have : m = x := by rw [← hm', h]
      rw [this]; exact List.mem_cons_self x xs
    · exact List.mem_cons_of_mem x (hm' ▸ h)

/-- Membership in a `drop`/`take` window, in terms of positions of the
underlying column. -/
theorem mem_window_iff {xs : List ℚ} {a w : Nat} {y : ℚ} :
    y ∈ (xs.drop a).take w ↔ ∃ i, i < w ∧ xs.get? (a + i) = some y := by
  constructor
  · intro hy
    rcases List.get?_of_mem hy with ⟨i, hi⟩
    have hiw : i < w := by
      by_contra hge
      push_neg at hge
      have hlen : ((xs.drop a).take w).length ≤ i :=
        le_trans (le_trans (List.length_take ..).le (min_le_left _ _)) hge
      rw [List.get?_eq_none.2 hlen] at hi
      cases hi
    refine ⟨i, hiw, ?_⟩
    rw [← List.get?_drop, ← List.get?_take hiw]
    exact hi
  · rintro ⟨i, hiw, hget⟩
    have : ((xs.drop a).take w).get? i = some y := by
      rw [List.get?_take hiw, List.get?_drop]
      exact hget
    exact List.get?_mem this

/-- The window is nonempty as soon as its start index is in range. -/
theorem window_ne_nil {xs : List ℚ} {a w : Nat} (hw : 1 ≤ w) (ha : a < xs.length) :
    (xs.drop a).take w ≠ [] := by
  intro hnil
  have hlen : ((xs.drop a).take w).length = min w (xs.length - a) := by
    rw [List.length_take, List.length_drop]
  rw [hnil] at hlen
  simp only [List.length_nil] at hlen
  have h2 : 0 < xs.length - a := Nat.sub_pos_of_lt ha
  omega

theorem emaFrom_length (a e : ℚ) (xs : List ℚ) : (emaFrom a e xs).length = xs.length := by
  induction xs generalizing e with
  | nil => rfl
  | cons x xs ih => simp [emaFrom, ih]

theorem emaList_length (s : Nat) (xs : List ℚ) : (emaList s xs).length = xs.length := by
  cases xs with
  | nil => rfl
  | cons x xs => simp [emaList, emaFrom_length]

/-- The EMA column is defined on every in-range row. -/
theorem emaAt_isSome {s : Nat} {xs : List ℚ} {t : Nat} (h : t < xs.length) :
    ∃ e, emaAt s xs t = some e := by
  have : t < (emaList s xs).length := by rw [emaList_length]; exact h
  exact ⟨_, List.get?_eq_some.2 ⟨this, rfl⟩⟩

theorem trFrom_length (pc : ℚ) (bs : List Bar) : (trFrom pc bs).length = bs.length := by
  induction bs generalizing pc with
  | nil => rfl
  | cons b bs ih => simp [trFrom, ih]

theorem trList_length (bs : List Bar) : (trList bs).length = bs.length := by
  cases bs with
  | nil => rfl
  | cons b bs => simp [trList, trFrom_length]

/-- A list of non-negative rationals with positive sum has a positive
element. -/
theorem exists_pos_of_sum_pos {l : List ℚ} (hnn : ∀ x ∈ l, 0 ≤ x) (hs : 0 < l.sum) :
    ∃ x ∈ l, 0 < x := by
  by_contra hnone
  push_neg at hnone
  have hz : ∀ x ∈ l, x = 0 := fun x hx => le_antisymm (hnone x hx) (hnn x hx)
  rw [List.sum_eq_zero hz] at hs
  exact lt_irrefl 0 hs

/-- Characterisation of the shifted rolling maximum on its defined range:
an upper bound of, and attained by, the values at rows `t-w .. t-1`. -/
theorem shiftRollMaxAt_spec {w t : Nat} {xs : List ℚ}
    (hw : 1 ≤ w) (hwt : w ≤ t) (ht : t < xs.length) :
    ∃ m, shiftRollMaxAt w xs t = some m ∧
      (∀ i y, t - w ≤ i → i < t → xs.get? i = some y → y ≤ m) ∧
      (∃ i, t - w ≤ i ∧ i < t ∧ xs.get? i = some m) := by
  have hgd : shiftRollMaxAt w xs t = listMax ((xs.drop (t - w)).take w) := by
    simp [shiftRollMaxAt, hw, hwt, ht]
  have hne : (xs.drop (t - w)).take w ≠ [] := window_ne_nil hw (by omega)
  obtain ⟨m, hm⟩ := listMax_isSome hne
  refine ⟨m, by rw [hgd, hm], ?_, ?_⟩
  · intro i y hi1 hi2 hget
    have hmem : y ∈ (xs.drop (t - w)).take w :=
      mem_window_iff.2 ⟨i - (t - w), by omega,
        by rw [show t - w + (i - (t - w)) = i by omega]; exact hget⟩
    exact le_listMax hm hmem
  · rcases mem_window_iff.1 (listMax_mem hm) with ⟨j, hj, hget⟩
    exact ⟨t - w + j, by omega, by omega, hget⟩

/-- Characterisation of the shifted rolling minimum on its defined range. -/
theorem shiftRollMinAt_spec {w t : Nat} {xs : List ℚ}
    (hw : 1 ≤ w) (hwt : w ≤ t) (ht : t < xs.length) :
    ∃ m, shiftRollMinAt w xs t = some m ∧
      (∀ i y, t - w ≤ i → i < t → xs.get? i = some y → m ≤ y) ∧
      (∃ i, t - w ≤ i ∧ i < t ∧ xs.get? i = some m) := by
  have hgd : shiftRollMinAt w xs t = listMin ((xs.drop (t - w)).take w) := by
    simp [shiftRollMinAt, hw, hwt, ht]
  have hne : (xs.drop (t - w)).take w ≠ [] := window_ne_nil hw (by omega)
  obtain ⟨m, hm⟩ := listMin_isSome hne
  refine ⟨m, by rw [hgd, hm], ?_, ?_⟩
  · intro i y hi1 hi2 hget
    have hmem : y ∈ (xs.drop (t - w)).take w :=
      mem_window_iff.2 ⟨i - (t - w), by omega,
        by rw [show t - w + (i - (t - w)) = i by omega]; exact hget⟩
    exact listMin_le hm hmem
  · rcases mem_window_iff.1 (listMin_mem hm) with ⟨j, hj, hget⟩
    exact ⟨t - w + j, by omega, by omega, hget⟩

/-- The shifted rolling extrema are undefined while the shifted window is
not yet full (`t < w`). -/
theorem shiftRoll_undefined_of_lt {w t : Nat} {xs : List ℚ} (h : t < w) :
    shiftRollMaxAt w xs t = none ∧ shiftRollMinAt w xs t = none := by
  constructor <;> · simp [shiftRollMaxAt, shiftRollMinAt]; intro _ h2; omega

/-- C1: wherever the Donchian entry channel is defined (`entry_period ≤ t`),
its value is the maximum high over the bars `t-entry_period .. t-1` strictly
before `t` — bar `t`'s own data never enters (replacing bar `t` leaves the
channel unchanged) — and a bar whose close strictly exceeds every high of
that window is marked `signal = 1`. -/
theorem c1_donchian_channel_excludes_current_bar
    (cfg : Donchian.Cfg) (bars : List Bar) (t : Nat)
    (hw : 1 ≤ cfg.entryPeriod) (hwt : cfg.entryPeriod ≤ t) (ht : t < bars.length)
    (hb : ∀ b ∈ bars, b.low ≤ b.high) :
    (∃ m, Donchian.entryHighAt cfg bars t = some m ∧
      (∀ i b, t - cfg.entryPeriod ≤ i → i < t → bars.get? i = some b → b.high ≤ m) ∧
      (∃ i b, t - cfg.entryPeriod ≤ i ∧ i < t ∧ bars.get? i = some b ∧ b.high = m)) ∧
    (∀ nb : Bar, Donchian.entryHighAt cfg (bars.set t nb) t = Donchian.entryHighAt cfg bars t) ∧
    (∀ b, bars.get? t = some b →
      (∀ i bi, t - cfg.entryPeriod ≤ i → i < t → bars.get? i = some bi → bi.high < b.close) →
      Donchian.signalAt cfg bars t = 1) := by
  have hlen : (bars.map (·.high)).length = bars.length := List.length_map ..
  have hth : t < (bars.map (·.high)).length := hlen ▸ ht
  obtain ⟨m, hm, hub, hat⟩ := shiftRollMaxAt_spec hw hwt hth
  have hat2 : ∃ i bi, t - cfg.entryPeriod ≤ i ∧ i < t ∧ bars.get? i = some bi ∧ bi.high = m := by
    obtain ⟨i, hi1, hi2, hgeti⟩ := hat
    rw [List.get?_map] at hgeti
    rcases hb2 : bars.get? i with _ | bi
    · rw [hb2] at hgeti; cases hgeti
    · rw [hb2] at hgeti
      exact ⟨i, bi, hi1, hi2, hb2, Option.some.inj hgeti⟩
  refine ⟨⟨m, hm, ?_, hat2⟩, ?_, ?_⟩
  · intro i b hi1 hi2 hget
    exact hub i b.high hi1 hi2 (by rw [List.get?_map, hget]; rfl)
  · intro nb
    unfold Donchian.entryHighAt shiftRollMaxAt
    have hset : (bars.set t nb).map (·.high) = (bars.map (·.high)).set t nb.high :=
      List.map_set ..
    have hlens : ((bars.set t nb).map (·.high)).length = (bars.map (·.high)).length := by
      rw [hset, List.length_set]
    have hwin : (((bars.set t nb).map (·.high)).drop (t - cfg.entryPeriod)).take cfg.entryPeriod
        = ((bars.map (·.high)).drop (t - cfg.entryPeriod)).take cfg.entryPeriod := by
      apply List.ext
      intro n
      rcases Nat.lt_or_ge n cfg.entryPeriod with hn | hn
      · rw [List.get?_take hn, List.get?_take hn, List.get?_drop, List.get?_drop, hset,
          List.get?_set_ne]
        omega
      · have h1 := le_trans (le_trans (List.length_take cfg.entryPeriod
          (((bars.set t nb).map (·.high)).drop (t - cfg.entryPeriod))).le (min_le_left _ _)) hn
        have h2 := le_trans (le_trans (List.length_take cfg.entryPeriod
          ((bars.map (·.high)).drop (t - cfg.entryPeriod))).le (min_le_left _ _)) hn
        rw [List.get?_eq_none.2 h1, List.get?_eq_none.2 h2]
    rw [hlens, hwin]
  · intro b hget hlt
    have hclose : closeAt bars t = some b.close := by
      unfold closeAt
      rw [hget]
      rfl
    have hmlt : m < b.close := by
      obtain ⟨i, bi, hi1, hi2, hgeti, hhi⟩ := hat2
      exact hhi ▸ hlt i bi hi1 hi2 hgeti
    have hlong : Donchian.longBreakoutAt cfg bars t = true := by
      simp only [Donchian.longBreakoutAt, Donchian.entryHighAt, hm, hclose, oltB]
      exact decide_eq_true hmlt
    have hshort : Donchian.shortBreakoutAt cfg bars t = false := by
      have htl : t < (bars.map (·.low)).length := by
        rw [List.length_map]
        exact ht
      obtain ⟨m2, hm2, hlb, hmin2⟩ := shiftRollMinAt_spec hw hwt htl
      have hm2lt : m2 < b.close := by
        obtain ⟨i, hi1, hi2, hgeti⟩ := hmin2
        rw [List.get?_map] at hgeti
        rcases hb2 : bars.get? i with _ | bi
        · rw [hb2] at hgeti; cases hgeti
        · rw [hb2] at hgeti
          have hlow : bi.low = m2 := Option.some.inj hgeti
          have hlh : bi.low ≤ bi.high := hb bi (List.get?_mem hb2)
          have hhib : bi.high < b.close := hlt i bi hi1 hi2 hb2
          calc m2 = bi.low := hlow.symm
            _ ≤ bi.high := hlh
            _ < b.close := hhib
      simp only [Donchian.shortBreakoutAt, Donchian.entryLowAt, hm2, hclose, oltB]
      exact decide_eq_false (not_lt.2 (le_of_lt hm2lt))
    simp [Donchian.signalAt, hshort, hlong]

/-- Witness for C1 at a concrete input: a two-bar rising series with a
1-bar channel; the second bar closes above the first bar's high. -/
theorem c1_witness :
    (1 ≤ donTinyCfg.entryPeriod ∧ donTinyCfg.entryPeriod ≤ 1 ∧ 1 < riseBars.length ∧
      ∀ b ∈ riseBars, b.low ≤ b.high) ∧
    (∃ m, Donchian.entryHighAt donTinyCfg riseBars 1 = some m ∧
      (∀ i b, 1 - donTinyCfg.entryPeriod ≤ i → i < 1 → riseBars.get? i = some b → b.high ≤ m) ∧
      (∃ i b, 1 - donTinyCfg.entryPeriod ≤ i ∧ i < 1 ∧ riseBars.get? i = some b ∧ b.high = m)) ∧
    (∀ nb : Bar,
      Donchian.entryHighAt donTinyCfg (riseBars.set 1 nb) 1 =
        Donchian.entryHighAt donTinyCfg riseBars 1) ∧
    (∀ b, riseBars.get? 1 = some b →
      (∀ i bi, 1 - donTinyCfg.entryPeriod ≤ i → i < 1 → riseBars.get? i = some bi →
        bi.high < b.close) →
      Donchian.signalAt donTinyCfg riseBars 1 = 1) := by
  have h1 : 1 ≤ donTinyCfg.entryPeriod := by norm_num [donTinyCfg]
  have h2 : donTinyCfg.entryPeriod ≤ 1 := by norm_num [donTinyCfg]
  have h3 : 1 < riseBars.length := by norm_num [riseBars]
  have h4 : ∀ b ∈ riseBars, b.low ≤ b.high := by decide
  exact ⟨⟨h1, h2, h3, h4⟩,
    c1_donchian_channel_excludes_current_bar donTinyCfg riseBars 1 h1 h2 h3 h4⟩

/-- C2 counterexample: on `c2bars` the MA101 variant returns a Current
Signal Record whose `risk_per_share` is `15 - 1591/81 = -376/81 < 0`,
which is negative and differs from `|entry - stop|` — refuting the claim
that every variant computes `risk_per_share = |entry - stop| ≥ 0`. -/
theorem c2_counterexample :
    (MA101.checkCurrentSignal c2cfg c2bars).map (·.riskPerShare)
      = some (some (-(376 / 81))) ∧
    (MA101.checkCurrentSignal c2cfg c2bars).map (·.entryPrice) = some (some 15) ∧
    (MA101.checkCurrentSignal c2cfg c2bars).map (·.stopPrice) = some (some (1591 / 81)) ∧
    (-(376 / 81) : ℚ) < 0 ∧
    (-(376 / 81) : ℚ) ≠ |15 - (1591 / 81 : ℚ)| := by
  have hm : MA101.checkCurrentSignal c2cfg c2bars =
      some { date := 0, signal := "LONG", entryPrice := some 15,
             stopPrice := some (1591 / 81), riskPerShare := some (-(376 / 81)),
             atr := none } := by
    norm_num [MA101.checkCurrentSignal, MA101.signalAt, MA101.crossAboveAt, MA101.regimeAt,
      MA101.entryAt, MA101.stopAt, MA101.closes, c2bars, c2cfg, mkBar, smaAt, rollMeanAt,
      windowTo, emaAt, emaList, emaFrom, closeAt, oltB, oleB, omap2, atrAt, trList, trFrom,
      List.get?, List.getLast]
    try (intro hc; exact absurd hc (by simp))
  have habs : |15 - (1591 / 81 : ℚ)| = 376 / 81 := by
    have h15 : (15 - 1591 / 81 : ℚ) = -(376 / 81) := by norm_num
    rw [h15, abs_neg, abs_of_pos]
    norm_num
  refine ⟨?_, ?_, ?_, by norm_num, ?_⟩
  · rw [hm, Option.map_some']
  · rw [hm, Option.map_some']
  · rw [hm, Option.map_some']
  · rw [habs]
    norm_num

/-- C2 as amended: only the Donchian variant computes `risk_per_share =
abs(entry - stop)` (hence non-negative); the MA101, Swing and HTF records
carry `entry - stop` without the absolute value.  For HTF the difference
is the bar's own `high - low`, non-negative on well-formed bars, while
for MA101/Swing it can be negative (see the counterexample). -/
theorem c2_amended_risk_per_share
    (dcfg : Donchian.Cfg) (dbars : List Bar)
    (mcfg : MA101.Cfg) (mbars : List Bar)
    (scfg : Swing.Cfg) (sbars : List Bar)
    (hcfg : HTF.Cfg) (hbars : List Bar) :
    (∀ r e s, Donchian.checkCurrentSignal dcfg dbars = some r →
      r.entryPrice = some e → r.stopPrice = some s →
      r.riskPerShare = some |e - s| ∧ 0 ≤ |e - s|) ∧
    (∀ r e s, MA101.checkCurrentSignal mcfg mbars = some r →
      r.entryPrice = some e → r.stopPrice = some s →
      r.riskPerShare = some (e - s)) ∧
    (∀ r e s, Swing.checkCurrentSignal scfg sbars = some r →
      r.entryPrice = some e → r.stopPrice = some s →
      r.riskPerShare = some (e - s)) ∧
    (∀ r, HTF.checkCurrentSignal hcfg hbars = some r →
      (∀ b ∈ hbars, b.low ≤ b.high) →
      ∃ q, r.riskPerShare = some q ∧ 0 ≤ q) := by
  refine ⟨?_, ?_, ?_, ?_⟩
  · intro r e s hr he hs
    unfold Donchian.checkCurrentSignal at hr
    split at hr
    · cases hr
    · split at hr
      · obtain rfl := Option.some.inj hr
        simp only at he hs
        simp [omap2, he, hs, abs_nonneg]
      · cases hr
  · intro r e s hr he hs
    unfold MA101.checkCurrentSignal at hr
    split at hr
    · cases hr
    · split at hr
      · obtain rfl := Option.some.inj hr
        simp only at he hs
        simp [omap2, he, hs]
      · cases hr
  · intro r e s hr he hs
    unfold Swing.checkCurrentSignal at hr
    split at hr
    · cases hr
    · split at hr
      · obtain rfl := Option.some.inj hr
        simp only at he hs
        simp [omap2, he, hs]
      · cases hr
  · intro r hr hlh
    unfold HTF.checkCurrentSignal at hr
    split at hr
    · cases hr
    · rename_i hne
      split at hr
      · rename_i hsig
        obtain rfl := Option.some.inj hr
        have hmask : HTF.htfMaskAt hcfg hbars (hbars.length - 1) = true := by
          by_contra hmf
          simp [HTF.signalAt, hmf] at hsig
        have htlt : hbars.length - 1 < hbars.length := by
          have : hbars.length ≠ 0 := fun h0 => hne (List.length_eq_zero.1 h0)
          omega
        obtain ⟨bt, hbt⟩ : ∃ bt, hbars.get? (hbars.length - 1) = some bt :=
          ⟨_, List.get?_eq_some.2 ⟨htlt, rfl⟩⟩
        refine ⟨bt.high - bt.low, ?_, ?_⟩
        · simp only [HTF.entryAt, HTF.stopAt, hmask, if_true]
          unfold highAt lowAt
          rw [hbt]
          rfl
        · have := hlh bt (List.get?_mem hbt)
          linarith
      · cases hr

/-- Witness for the amended C2 at concrete inputs.  The Donchian record on
`riseBars` has entry 3, stop 1 and `risk_per_share = |3 - 1| = 2`; the
MA101 record on `c2bars` has `risk_per_share = 15 - 1591/81`. -/
theorem c2_amended_witness :
    (Donchian.checkCurrentSignal donTinyCfg riseBars).map (·.riskPerShare)
      = some (some |3 - (1 : ℚ)|) ∧
    (MA101.checkCurrentSignal c2cfg c2bars).map (·.riskPerShare)
      = some (some (15 - 1591 / 81 : ℚ)) := by
  have hd : Donchian.checkCurrentSignal donTinyCfg riseBars =
      some { date := 1, signal := "LONG", entryPrice := some 3, stopPrice := some 1,
             reason := "1-day breakout high", riskPerShare := some 2, atr := some 3 } := by
    norm_num [Donchian.checkCurrentSignal, Donchian.signalAt, Donchian.longBreakoutAt,
      Donchian.shortBreakoutAt, Donchian.entryHighAt, Donchian.entryLowAt, Donchian.entryAt,
      Donchian.stopAt, Donchian.stopLongAt, Donchian.exitLowAt, Donchian.reasonAt,
      shiftRollMaxAt, shiftRollMinAt, listMax, listMin, closeAt, oltB, omap2, atrAt,
      rollMeanAt, windowTo, trList, trFrom, donTinyCfg, riseBars, List.get?, abs,
      List.getLast]
    try exact ⟨by simp, rfl⟩
  have hm : MA101.checkCurrentSignal c2cfg c2bars =
      some { date := 0, signal := "LONG", entryPrice := some 15,
             stopPrice := some (1591 / 81), riskPerShare := some (-(376 / 81)),
             atr := none } := by
    norm_num [MA101.checkCurrentSignal, MA101.signalAt, MA101.crossAboveAt, MA101.regimeAt,
      MA101.entryAt, MA101.stopAt, MA101.closes, c2bars, c2cfg, mkBar, smaAt, rollMeanAt,
      windowTo, emaAt, emaList, emaFrom, closeAt, oltB, oleB, omap2, atrAt, trList, trFrom,
      List.get?, List.getLast]
    try (intro hc; exact absurd hc (by simp))
  have h1 := (c2_amended_risk_per_share donTinyCfg riseBars c2cfg c2bars {} []
    {} []).1 _ 3 1 hd rfl rfl
  have h2 := (c2_amended_risk_per_share donTinyCfg riseBars c2cfg c2bars {} []
    {} []).2.1 _ 15 (1591 / 81) hm rfl rfl
  constructor
  · rw [hd, Option.map_some']
    exact congrArg some h1.1
  · rw [hm, Option.map_some']
    exact congrArg some h2

/-- C3: position sizing fails closed on zero per-share risk, otherwise
returns the risk-budget share count clamped to the max-position-equity
cap; the result is never negative and never exceeds the cap. -/
theorem c3_position_size_clamped (riskPct maxPct entry stop equity : ℚ)
    (hrp : 0 ≤ riskPct) (hmp : 0 ≤ maxPct) (he : 0 < entry) (hs : 0 ≤ stop)
    (heq : 0 ≤ equity) :
    (|entry - stop| = 0 → calculatePositionSize riskPct maxPct entry stop equity = 0) ∧
    (|entry - stop| ≠ 0 → calculatePositionSize riskPct maxPct entry stop equity =
      min ⌊equity * riskPct / |entry - stop|⌋ ⌊equity * maxPct / entry⌋) ∧
    0 ≤ calculatePositionSize riskPct maxPct entry stop equity ∧
    calculatePositionSize riskPct maxPct entry stop equity ≤ ⌊equity * maxPct / entry⌋ := by
  have hcap : (0 : ℚ) ≤ equity * maxPct / entry :=
    div_nonneg (mul_nonneg heq hmp) (le_of_lt he)
  have hcapz : (0 : ℤ) ≤ ⌊equity * maxPct / entry⌋ := Int.le_floor.2 (by exact_mod_cast hcap)
  by_cases h0 : |entry - stop| = 0
  · have hres : calculatePositionSize riskPct maxPct entry stop equity = 0 := by
      simp [calculatePositionSize, h0]
    exact ⟨fun _ => hres, fun hne => absurd h0 hne, by rw [hres], by rw [hres]; exact hcapz⟩
  · have hrisk : (0 : ℚ) ≤ equity * riskPct / |entry - stop| :=
      div_nonneg (mul_nonneg heq hrp) (abs_nonneg _)
    have hriskz : (0 : ℤ) ≤ ⌊equity * riskPct / |entry - stop|⌋ :=
      Int.le_floor.2 (by exact_mod_cast hrisk)
    have hres : calculatePositionSize riskPct maxPct entry stop equity =
        min ⌊equity * riskPct / |entry - stop|⌋ ⌊equity * maxPct / entry⌋ := by
      simp only [calculatePositionSize, h0, if_false, pyInt, hrisk, hcap, if_true, if_pos]
    refine ⟨fun hz => absurd hz h0, fun _ => hres, ?_, ?_⟩
    · rw [hres]; exact le_min hriskz hcapz
    · rw [hres]; exact min_le_right _ _

/-- Witness for C3 at a concrete input: entry 10, stop 9, equity 1000,
1% risk, 2% max position. -/
theorem c3_witness :
    (0 ≤ (1 / 100 : ℚ) ∧ 0 ≤ (2 / 100 : ℚ) ∧ (0 : ℚ) < 10 ∧ (0 : ℚ) ≤ 9 ∧ (0 : ℚ) ≤ 1000) ∧
    ((|10 - (9 : ℚ)| = 0 → calculatePositionSize (1 / 100) (2 / 100) 10 9 1000 = 0) ∧
     (|10 - (9 : ℚ)| ≠ 0 → calculatePositionSize (1 / 100) (2 / 100) 10 9 1000 =
       min ⌊(1000 : ℚ) * (1 / 100) / |10 - (9 : ℚ)|⌋ ⌊(1000 : ℚ) * (2 / 100) / 10⌋) ∧
     0 ≤ calculatePositionSize (1 / 100) (2 / 100) 10 9 1000 ∧
     calculatePositionSize (1 / 100) (2 / 100) 10 9 1000 ≤ ⌊(1000 : ℚ) * (2 / 100) / 10⌋) := by
  refine ⟨⟨by norm_num, by norm_num, by norm_num, by norm_num, by norm_num⟩, ?_⟩
  exact c3_position_size_clamped (1 / 100) (2 / 100) 10 9 1000
    (by norm_num) (by norm_num) (by norm_num) (by norm_num) (by norm_num)

/-- C5: the code bug at the RSI division.  On a constant-price stretch the
trailing average loss and average gain are both zero, `rs = 0/0` is NaN
and the computed RSI is undefined — not 100 as the claim requires.  On a
strictly rising stretch (average loss zero, average gain positive) the
code does return 100, so the failure is exactly the constant case. -/
theorem c5_rsi_constant_series_not_100 :
    rsiAt 14 c5flat 19 = none ∧ rsiAt 14 c5rise 19 = some 100 := by
  constructor <;>
    norm_num [rsiAt, rollMeanAt, windowTo, gains, losses, gainsFrom, lossesFrom,
      c5flat, c5rise]

/-- C9: the code bug at input validation.  Neither the shared
`calculate_indicators` nor any variant checks date monotonicity or input
shape: on `c9bars` (dates 3, 1, 2, not monotone) indicator columns are
computed (the Donchian channel and the ATR carry values) and
`generate_signals` silently returns a full signal series instead of
rejecting the evaluation. -/
theorem c9_malformed_series_not_rejected :
    ¬ datesStrictMono c9bars ∧
    Donchian.entryHighAt donTinyCfg c9bars 2 = some 12 ∧
    atrAt 1 c9bars 2 = some 3 ∧
    Donchian.generateSignals donTinyCfg c9bars =
      [{ signal := 0, entryPrice := none, stopPrice := none, reason := "" },
       { signal := 0, entryPrice := none, stopPrice := none, reason := "" },
       { signal := 0, entryPrice := none, stopPrice := none, reason := "" }] := by
  refine ⟨?_, ?_, ?_, ?_⟩
  · intro h
    simp only [datesStrictMono, c9bars, List.chain'_cons] at h
    omega
  · norm_num [Donchian.entryHighAt, shiftRollMaxAt, listMax, c9bars, donTinyCfg, List.get?]
  · norm_num [atrAt, rollMeanAt, windowTo, trList, trFrom, c9bars, List.get?, abs]
  · norm_num [Donchian.generateSignals, Donchian.signalAt, Donchian.longBreakoutAt,
      Donchian.shortBreakoutAt, Donchian.entryHighAt, Donchian.entryLowAt, Donchian.entryAt,
      Donchian.stopAt, Donchian.reasonAt, shiftRollMaxAt, shiftRollMinAt, listMax, listMin,
      closeAt, oltB, c9bars, donTinyCfg, List.get?, List.range_succ]

/-- C10: every HTF long signal bar carries its own high as the entry price
and its own low as the stop price, so the Current Signal Record's
risk-per-share is the breakout bar's full range `high - low`, non-negative
whenever the bar satisfies `low ≤ high`. -/
theorem c10_htf_entry_is_high_stop_is_low (cfg : HTF.Cfg) (bars : List Bar) :
    (∀ t b, bars.get? t = some b → HTF.signalAt cfg bars t = 1 →
      HTF.entryAt cfg bars t = some b.high ∧ HTF.stopAt cfg bars t = some b.low) ∧
    (∀ r, HTF.checkCurrentSignal cfg bars = some r →
      ∃ b, bars.get? (bars.length - 1) = some b ∧
        r.entryPrice = some b.high ∧ r.stopPrice = some b.low ∧
        r.riskPerShare = some (b.high - b.low) ∧
        (b.low ≤ b.high → 0 ≤ b.high - b.low)) := by
  have hkey : ∀ t b, bars.get? t = some b → HTF.htfMaskAt cfg bars t = true →
      HTF.entryAt cfg bars t = some b.high ∧ HTF.stopAt cfg bars t = some b.low := by
    intro t b hget hmask
    constructor
    · simp only [HTF.entryAt, hmask, if_true]
      unfold highAt
      rw [hget]
      rfl
    · simp only [HTF.stopAt, hmask, if_true]
      unfold lowAt
      rw [hget]
      rfl
  constructor
  · intro t b hget hsig
    have hmask : HTF.htfMaskAt cfg bars t = true := by
      by_contra hmf
      simp [HTF.signalAt, hmf] at hsig
    exact hkey t b hget hmask
  · intro r hr
    unfold HTF.checkCurrentSignal at hr
    split at hr
    · cases hr
    · rename_i hne
      split at hr
      · rename_i hsig
        obtain rfl := Option.some.inj hr
        have hmask : HTF.htfMaskAt cfg bars (bars.length - 1) = true := by
          by_contra hmf
          simp [HTF.signalAt, hmf] at hsig
        have htlt : bars.length - 1 < bars.length := by
          have : bars.length ≠ 0 := fun h0 => hne (List.length_eq_zero.1 h0)
          omega
        obtain ⟨b, hb⟩ : ∃ b, bars.get? (bars.length - 1) = some b :=
          ⟨_, List.get?_eq_some.2 ⟨htlt, rfl⟩⟩
        obtain ⟨hent, hstop⟩ := hkey _ b hb hmask
        refine ⟨b, hb, hent, hstop, ?_, fun hlh => by linarith⟩
        simp only [hent, hstop, omap2]
      · cases hr

/-- A true strict comparison forces both operands to be defined. -/
theorem oltB_eq_true_iff {a b : Option ℚ} :
    oltB a b = true ↔ ∃ x y, a = some x ∧ b = some y ∧ x < y := by
  cases a <;> cases b <;> simp [oltB]

/-- A true non-strict comparison forces both operands to be defined. -/
theorem oleB_eq_true_iff {a b : Option ℚ} :
    oleB a b = true ↔ ∃ x y, a = some x ∧ b = some y ∧ x ≤ y := by
  cases a <;> cases b <;> simp [oleB]

/-- A defined shifted rolling maximum forces the window guards. -/
theorem shiftRollMaxAt_some_guard {w t : Nat} {xs : List ℚ} {m : ℚ}
    (h : shiftRollMaxAt w xs t = some m) : 1 ≤ w ∧ w ≤ t ∧ t < xs.length := by
  by_contra hg
  rw [shiftRollMaxAt, if_neg hg] at h
  cases h

/-- A defined shifted rolling minimum forces the window guards. -/
theorem shiftRollMinAt_some_guard {w t : Nat} {xs : List ℚ} {m : ℚ}
    (h : shiftRollMinAt w xs t = some m) : 1 ≤ w ∧ w ≤ t ∧ t < xs.length := by
  by_contra hg
  rw [shiftRollMinAt, if_neg hg] at h
  cases h

/-- A defined EMA value forces the row index into range. -/
theorem emaAt_some_lt {s t : Nat} {xs : List ℚ} {e : ℚ}
    (h : emaAt s xs t = some e) : t < xs.length := by
  obtain ⟨hlt, -⟩ := List.get?_eq_some.1 h
  rw [emaList_length] at hlt
  exact hlt

/-- C6: in entry mode `all`, the three Swing patterns apply in the order
crossover, dip-50, dip-200, and a later pattern never overwrites a row an
earlier one marked: a crossover row is tagged `crossover` whatever the dip
masks say, a `dip_50` tag means the crossover mask was false, and a
`dip_200` tag means both earlier masks were false. -/
theorem c6_swing_first_match_wins (cfg : Swing.Cfg) (bars : List Bar) (t : Nat)
    (hmode : cfg.entryMode = "all") :
    (Swing.crossAboveAt cfg bars t = true →
      Swing.entryTypeAt cfg bars t = "crossover" ∧ Swing.signalAt cfg bars t = 1) ∧
    (Swing.entryTypeAt cfg bars t = "dip_50" ↔
      Swing.dip50At cfg bars t = true ∧ Swing.crossAboveAt cfg bars t = false) ∧
    (Swing.entryTypeAt cfg bars t = "dip_200" ↔
      Swing.dip200At cfg bars t = true ∧ Swing.crossAboveAt cfg bars t = false ∧
      Swing.dip50At cfg bars t = false) := by
  have hca : Swing.crossActive cfg = true := by simp [Swing.crossActive, hmode]
  have h5a : Swing.dip50Active cfg = true := by simp [Swing.dip50Active, hmode]
  have h2a : Swing.dip200Active cfg = true := by simp [Swing.dip200Active, hmode]
  cases hc : Swing.crossAboveAt cfg bars t <;>
    cases h5 : Swing.dip50At cfg bars t <;>
      cases h2 : Swing.dip200At cfg bars t <;>
        simp [Swing.entryTypeAt, Swing.signalAt, Swing.writesCross, Swing.writesDip50,
          Swing.writesDip200, hca, h5a, h2a, hc, h5, h2]

/-- Witness for C6 at a concrete input: the default Swing configuration
(entry mode `all`) on the empty series at row 0. -/
theorem c6_witness :
    (Swing.Cfg.entryMode {} = "all") ∧
    ((Swing.crossAboveAt {} [] 0 = true →
      Swing.entryTypeAt {} [] 0 = "crossover" ∧ Swing.signalAt {} [] 0 = 1) ∧
    (Swing.entryTypeAt {} [] 0 = "dip_50" ↔
      Swing.dip50At {} [] 0 = true ∧ Swing.crossAboveAt {} [] 0 = false) ∧
    (Swing.entryTypeAt {} [] 0 = "dip_200" ↔
      Swing.dip200At {} [] 0 = true ∧ Swing.crossAboveAt {} [] 0 = false ∧
      Swing.dip50At {} [] 0 = false)) :=
  ⟨rfl, c6_swing_first_match_wins {} [] 0 rfl⟩

/-- C7: on any series shorter than the variant's minimum lookback the
entry conditions reference undefined channel/SMA values, every comparison
with an undefined value is false, the final bar's signal stays 0, and
`check_current_signal` returns nothing rather than failing: shown for the
Donchian variant (series no longer than `entry_period`, so the shifted
entry channel is undefined on every row) and the MA101 variant (series
shorter than `regime_ma`, so the regime SMA is undefined on every row). -/
theorem c7_short_series_returns_none
    (dcfg : Donchian.Cfg) (dbars : List Bar) (mcfg : MA101.Cfg) (mbars : List Bar)
    (hd : dbars.length ≤ dcfg.entryPeriod) (hm : mbars.length < mcfg.regimeMa) :
    (∀ t, Donchian.signalAt dcfg dbars t = 0) ∧
    Donchian.checkCurrentSignal dcfg dbars = none ∧
    (∀ t, MA101.signalAt mcfg mbars t = 0) ∧
    MA101.checkCurrentSignal mcfg mbars = none := by
  have hdsig : ∀ t, Donchian.signalAt dcfg dbars t = 0 := by
    intro t
    have hhigh : Donchian.entryHighAt dcfg dbars t = none := by
      rw [Donchian.entryHighAt, shiftRollMaxAt, if_neg]
      rw [List.length_map]
      omega
    have hlow : Donchian.entryLowAt dcfg dbars t = none := by
      rw [Donchian.entryLowAt, shiftRollMinAt, if_neg]
      rw [List.length_map]
      omega
    have hlb : Donchian.longBreakoutAt dcfg dbars t = false := by
      rw [Donchian.longBreakoutAt, hhigh]
      rfl
    have hsb : Donchian.shortBreakoutAt dcfg dbars t = false := by
      rw [Donchian.shortBreakoutAt, hlow]
      cases closeAt dbars t <;> rfl
    simp [Donchian.signalAt, hlb, hsb]
  have hmsig : ∀ t, MA101.signalAt mcfg mbars t = 0 := by
    intro t
    have hsma : smaAt mcfg.regimeMa (MA101.closes mbars) t = none := by
      rw [smaAt, rollMeanAt, if_neg]
      rw [MA101.closes, List.length_map]
      omega
    have hreg : MA101.regimeAt mcfg mbars t = false := by
      rw [MA101.regimeAt, hsma]
      rfl
    simp [MA101.signalAt, hreg]
  refine ⟨hdsig, ?_, hmsig, ?_⟩
  · unfold Donchian.checkCurrentSignal
    split
    · rfl
    · rw [if_neg]
      simp [hdsig]
  · unfold MA101.checkCurrentSignal
    split
    · rfl
    · rw [if_neg]
      simp [hmsig]

/-- Witness for C7 at a concrete input: `riseBars` (2 bars) against the
default 50-bar Donchian entry channel, and `c2bars` (12 bars) against the
default 200-bar MA101 regime filter. -/
theorem c7_witness :
    (riseBars.length ≤ Donchian.Cfg.entryPeriod {} ∧
      c2bars.length < MA101.Cfg.regimeMa {}) ∧
    ((∀ t, Donchian.signalAt {} riseBars t = 0) ∧
      Donchian.checkCurrentSignal {} riseBars = none ∧
      (∀ t, MA101.signalAt {} c2bars t = 0) ∧
      MA101.checkCurrentSignal {} c2bars = none) := by
  have h1 : riseBars.length ≤ Donchian.Cfg.entryPeriod {} := by
    norm_num [riseBars]
  have h2 : c2bars.length < MA101.Cfg.regimeMa {} := by
    norm_num [c2bars]
  exact ⟨⟨h1, h2⟩, c7_short_series_returns_none {} riseBars {} c2bars h1 h2⟩

/-- C8: in the Donchian and Swing signal frames, a flat row has undefined
entry and stop prices and a non-flat row has both defined.  For Donchian
this uses the claim's proviso that the exit channel is the shorter one
(`exit_period ≤ entry_period`, as in the 50/25 default; the ATR-stop mode
analogously needs `atr_period ≤ entry_period + 1`): a defined entry
channel then forces the stop value to be defined as well. -/
theorem c8_flat_iff_undefined_entry_stop
    (dcfg : Donchian.Cfg) (dbars : List Bar) (scfg : Swing.Cfg) (sbars : List Bar) (t : Nat)
    (hexit1 : 1 ≤ dcfg.exitPeriod) (hexit : dcfg.exitPeriod ≤ dcfg.entryPeriod)
    (hatr1 : 1 ≤ dcfg.atrPeriod) (hatr : dcfg.atrPeriod ≤ dcfg.entryPeriod + 1) :
    (Donchian.signalAt dcfg dbars t = 0 →
      Donchian.entryAt dcfg dbars t = none ∧ Donchian.stopAt dcfg dbars t = none) ∧
    (Donchian.signalAt dcfg dbars t ≠ 0 →
      (∃ e, Donchian.entryAt dcfg dbars t = some e) ∧
      (∃ s, Donchian.stopAt dcfg dbars t = some s)) ∧
    (Swing.signalAt scfg sbars t = 0 →
      Swing.entryAt scfg sbars t = none ∧ Swing.stopAt scfg sbars t = none) ∧
    (Swing.signalAt scfg sbars t ≠ 0 →
      (∃ e, Swing.entryAt scfg sbars t = some e) ∧
      (∃ s, Swing.stopAt scfg sbars t = some s)) := by
  refine ⟨?_, ?_, ?_, ?_⟩
  · intro hz
    have hmasks : ¬(dcfg.allowShorts && Donchian.shortBreakoutAt dcfg dbars t) = true ∧
        Donchian.longBreakoutAt dcfg dbars t = false := by
      by_cases hS : (dcfg.allowShorts && Donchian.shortBreakoutAt dcfg dbars t) = true
      · rw [Donchian.signalAt, if_pos hS] at hz
        cases hz
      · refine ⟨hS, ?_⟩
        by_cases hL : Donchian.longBreakoutAt dcfg dbars t = true
        · rw [Donchian.signalAt, if_neg hS, if_pos hL] at hz
          cases hz
        · exact Bool.not_eq_true _ ▸ hL
    constructor
    · rw [Donchian.entryAt, if_neg]
      simp [hz]
    · rw [Donchian.stopAt, if_neg hmasks.1, if_neg]
      simp [hmasks.2]
  · intro hnz
    by_cases hS : (dcfg.allowShorts && Donchian.shortBreakoutAt dcfg dbars t) = true
    · have hsb : Donchian.shortBreakoutAt dcfg dbars t = true := (Bool.and_eq_true .. ▸ hS).2
      obtain ⟨c, m, hc, hm, hlt⟩ := oltB_eq_true_iff.1 hsb
      obtain ⟨hw1, hw2, hw3⟩ := shiftRollMinAt_some_guard hm
      rw [List.length_map] at hw3
      have hentry : ∃ e, Donchian.entryAt dcfg dbars t = some e := by
        refine ⟨c, ?_⟩
        rw [Donchian.entryAt, if_pos hnz]
        exact hc
      refine ⟨hentry, ?_⟩
      rw [Donchian.stopAt, if_pos hS, Donchian.stopShortAt]
      by_cases hA : dcfg.useAtrStop = true
      · rw [if_pos hA]
        have hatrs : ∃ a, atrAt dcfg.atrPeriod dbars t = some a := by
          rw [atrAt, rollMeanAt, if_pos]
          · exact ⟨_, rfl⟩
          · rw [trList_length]
            omega
        obtain ⟨a, ha⟩ := hatrs
        exact ⟨_, by rw [hc, ha]; rfl⟩
      · rw [if_neg hA, Donchian.exitHighAt]
        have hth2 : t < (dbars.map (·.high)).length := by
          rw [List.length_map]
          exact hw3
        obtain ⟨m2, hm2, -, -⟩ := shiftRollMaxAt_spec hexit1 (le_trans hexit hw2) hth2
        exact ⟨m2, hm2⟩
    · have hL : Donchian.longBreakoutAt dcfg dbars t = true := by
        by_contra hLf
        rw [Donchian.signalAt, if_neg hS, if_neg hLf] at hnz
        exact hnz rfl
      obtain ⟨m, c, hm, hc, hlt⟩ := oltB_eq_true_iff.1 hL
      obtain ⟨hw1, hw2, hw3⟩ := shiftRollMaxAt_some_guard hm
      rw [List.length_map] at hw3
      have hentry : ∃ e, Donchian.entryAt dcfg dbars t = some e := by
        refine ⟨c, ?_⟩
        rw [Donchian.entryAt, if_pos hnz]
        exact hc
      refine ⟨hentry, ?_⟩
      rw [Donchian.stopAt, if_neg hS, if_pos hL, Donchian.stopLongAt]
      by_cases hA : dcfg.useAtrStop = true
      · rw [if_pos hA]
        have hatrs : ∃ a, atrAt dcfg.atrPeriod dbars t = some a := by
          rw [atrAt, rollMeanAt, if_pos]
          · exact ⟨_, rfl⟩
          · rw [trList_length]
            omega
        obtain ⟨a, ha⟩ := hatrs
        exact ⟨_, by rw [hc, ha]; rfl⟩
      · rw [if_neg hA, Donchian.exitLowAt]
        have htl2 : t < (dbars.map (·.low)).length := by
          rw [List.length_map]
          exact hw3
        obtain ⟨m2, hm2, -, -⟩ := shiftRollMinAt_spec hexit1 (le_trans hexit hw2) htl2
        exact ⟨m2, hm2⟩
  · intro hz
    have hw : Swing.writesCross scfg sbars t = false ∧
        Swing.writesDip50 scfg sbars t = false ∧
        Swing.writesDip200 scfg sbars t = false := by
      by_contra hx
      have hor : (Swing.writesCross scfg sbars t || Swing.writesDip50 scfg sbars t ||
          Swing.writesDip200 scfg sbars t) = true := by
        cases h1 : Swing.writesCross scfg sbars t <;>
          cases h2 : Swing.writesDip50 scfg sbars t <;>
            cases h3 : Swing.writesDip200 scfg sbars t <;>
              simp_all
      rw [Swing.signalAt, if_pos hor] at hz
      cases hz
    constructor
    · rw [Swing.entryAt, if_neg]
      simp [hz]
    · rw [Swing.stopAt, if_neg, if_neg, if_neg] <;> simp [hw.1, hw.2.1, hw.2.2]
  · intro hnz
    have hor : (Swing.writesCross scfg sbars t || Swing.writesDip50 scfg sbars t ||
        Swing.writesDip200 scfg sbars t) = true := by
      by_contra ho
      rw [Swing.signalAt, if_neg ho] at hnz
      exact hnz rfl
    have hs1 : Swing.signalAt scfg sbars t = 1 := by
      rw [Swing.signalAt, if_pos hor]
    by_cases hC : Swing.writesCross scfg sbars t = true
    · have hcr : Swing.crossAboveAt scfg sbars t = true := (Bool.and_eq_true .. ▸ hC).2
      rcases ht0 : t with _ | t'
      · rw [ht0] at hcr
        cases hcr
      · rw [ht0] at hcr
        unfold Swing.crossAboveAt at hcr
        obtain ⟨-, hlt⟩ := Bool.and_eq_true .. ▸ hcr
        obtain ⟨x, y, hx, hy, -⟩ := oltB_eq_true_iff.1 hlt
        have htlen : t' + 1 < sbars.length := by
          have := emaAt_some_lt hx
          rw [Swing.closes, List.length_map] at this
          exact this
        obtain ⟨b, hb⟩ : ∃ b, sbars.get? (t' + 1) = some b :=
          ⟨_, List.get?_eq_some.2 ⟨htlen, rfl⟩⟩
        refine ⟨⟨b.close, ?_⟩, ⟨x, ?_⟩⟩
        · rw [Swing.entryAt, if_pos (ht0 ▸ hs1), closeAt, hb]
          rfl
        · rw [Swing.stopAt, if_pos (ht0 ▸ hC)]
          exact hx
    · have hD : Swing.writesDip50 scfg sbars t = true ∨
          Swing.writesDip200 scfg sbars t = true := by
        cases h2 : Swing.writesDip50 scfg sbars t <;>
          cases h3 : Swing.writesDip200 scfg sbars t <;>
            simp_all
      rcases hD with hD | hD
      · have hdip : Swing.dip50At scfg sbars t = true := by
          have := Bool.and_eq_true .. ▸ hD
          exact (Bool.and_eq_true .. ▸ this.1).2
        unfold Swing.dip50At at hdip
        obtain ⟨hrest, -⟩ := Bool.and_eq_true .. ▸ hdip
        obtain ⟨hlo, hsm⟩ := Bool.and_eq_true .. ▸ hrest
        obtain ⟨x, y, hx, hy, -⟩ := oleB_eq_true_iff.1 hlo
        obtain ⟨b, hb⟩ : ∃ b, sbars.get? t = some b := by
          unfold lowAt at hx
          rcases hg : sbars.get? t with _ | b
          · rw [hg] at hx
            cases hx
          · exact ⟨b, rfl⟩
        refine ⟨⟨b.close, ?_⟩, ?_⟩
        · rw [Swing.entryAt, if_pos hs1, closeAt, hb]
          rfl
        · rw [Swing.stopAt, if_neg, if_pos hD]
          · exact ⟨y * (98 / 100), by rw [hy]; rfl⟩
          · simp [hC]
      · have hD5 : Swing.writesDip50 scfg sbars t = false := by
          have h1 := Bool.and_eq_true .. ▸ hD
          cases h2 : Swing.writesDip50 scfg sbars t <;> simp_all
        have hdip : Swing.dip200At scfg sbars t = true := by
          have h1 := Bool.and_eq_true .. ▸ hD
          have h2 := Bool.and_eq_true .. ▸ h1.1
          have h3 := Bool.and_eq_true .. ▸ h2.1
          exact h3.2
        unfold Swing.dip200At at hdip
        obtain ⟨hrest, -⟩ := Bool.and_eq_true .. ▸ hdip
        obtain ⟨hlo, hsm⟩ := Bool.and_eq_true .. ▸ hrest
        obtain ⟨x, y, hx, hy, -⟩ := oleB_eq_true_iff.1 hlo
        obtain ⟨b, hb⟩ : ∃ b, sbars.get? t = some b := by
          unfold lowAt at hx
          rcases hg : sbars.get? t with _ | b
          · rw [hg] at hx
            cases hx
          · exact ⟨b, rfl⟩
        refine ⟨⟨b.close, ?_⟩, ?_⟩
        · rw [Swing.entryAt, if_pos hs1, closeAt, hb]
          rfl
        · rw [Swing.stopAt, if_neg, if_neg, if_pos hD]
          · exact ⟨y * (97 / 100), by rw [hy]; rfl⟩
          · simp [hD5]
          · simp [hC]

/-- Witness for C8 at a concrete input: the default Donchian and Swing
configurations (50/25/14 and mode `all`) on `riseBars` at row 1. -/
theorem c8_witness :
    (1 ≤ Donchian.Cfg.exitPeriod {} ∧
      Donchian.Cfg.exitPeriod {} ≤ Donchian.Cfg.entryPeriod {} ∧
      1 ≤ Donchian.Cfg.atrPeriod {} ∧
      Donchian.Cfg.atrPeriod {} ≤ Donchian.Cfg.entryPeriod {} + 1) ∧
    ((Donchian.signalAt {} riseBars 1 = 0 →
      Donchian.entryAt {} riseBars 1 = none ∧ Donchian.stopAt {} riseBars 1 = none) ∧
    (Donchian.signalAt {} riseBars 1 ≠ 0 →
      (∃ e, Donchian.entryAt {} riseBars 1 = some e) ∧
      (∃ s, Donchian.stopAt {} riseBars 1 = some s)) ∧
    (Swing.signalAt {} riseBars 1 = 0 →
      Swing.entryAt {} riseBars 1 = none ∧ Swing.stopAt {} riseBars 1 = none) ∧
    (Swing.signalAt {} riseBars 1 ≠ 0 →
      (∃ e, Swing.entryAt {} riseBars 1 = some e) ∧
      (∃ s, Swing.stopAt {} riseBars 1 = some s))) := by
  refine ⟨⟨by norm_num, by norm_num, by norm_num, by norm_num⟩, ?_⟩
  exact c8_flat_iff_undefined_entry_stop {} riseBars {} riseBars 1
    (by norm_num) (by norm_num) (by norm_num) (by norm_num)

/-- A defined rolling mean forces the window guards and exposes the mean
as the window sum over the window width. -/
theorem rollMeanAt_some_inv {w t : Nat} {xs : List ℚ} {v : ℚ}
    (h : rollMeanAt w xs t = some v) :
    (1 ≤ w ∧ w ≤ t + 1 ∧ t < xs.length) ∧ v = (windowTo xs w t).sum / w := by
  by_cases hg : 1 ≤ w ∧ w ≤ t + 1 ∧ t < xs.length
  · rw [rollMeanAt, if_pos hg] at h
    exact ⟨hg, (Option.some.inj h).symm⟩
  · rw [rollMeanAt, if_neg hg] at h
    cases h

/-- C4: the HTF signal fires exactly when all seven source masks hold on
the same bar (so any single false filter leaves the bar flat), and every
Current Signal Record it emits carries `volume_ratio` at least the
configured breakout multiplier, provided the bars carry non-negative
volumes and closes and the liquidity threshold is positive. -/
theorem c4_htf_conjunction_of_filters (cfg : HTF.Cfg) (bars : List Bar) (t : Nat) :
    (HTF.signalAt cfg bars t = 1 ↔
      HTF.liquidityOkAt cfg bars t = true ∧ HTF.above50maAt bars t = true ∧
      HTF.strongPoleAt cfg bars t = true ∧ HTF.nearHighsAt bars t = true ∧
      HTF.tightAt bars t = true ∧ HTF.breakoutAt bars t = true ∧
      HTF.volumeConfirmationAt cfg bars t = true) ∧
    (∀ r, HTF.checkCurrentSignal cfg bars = some r →
      (∀ b ∈ bars, 0 ≤ b.volume ∧ 0 ≤ b.close) → 0 < cfg.minDollarVolume →
      ∃ v, r.volumeRatioField = some v ∧ cfg.volumeBreakoutMultiplier ≤ v) := by
  have hiff : ∀ u, HTF.signalAt cfg bars u = 1 ↔
      HTF.liquidityOkAt cfg bars u = true ∧ HTF.above50maAt bars u = true ∧
      HTF.strongPoleAt cfg bars u = true ∧ HTF.nearHighsAt bars u = true ∧
      HTF.tightAt bars u = true ∧ HTF.breakoutAt bars u = true ∧
      HTF.volumeConfirmationAt cfg bars u = true := by
    intro u
    constructor
    · intro hs
      have hmask : HTF.htfMaskAt cfg bars u = true := by
        by_contra hmf
        simp [HTF.signalAt, hmf] at hs
      unfold HTF.htfMaskAt at hmask
      repeat rw [Bool.and_eq_true] at hmask
      exact ⟨hmask.1.1.1.1.1.1, hmask.1.1.1.1.1.2, hmask.1.1.1.1.2, hmask.1.1.1.2,
        hmask.1.1.2, hmask.1.2, hmask.2⟩
    · rintro ⟨h1, h2, h3, h4, h5, h6, h7⟩
      have hmask : HTF.htfMaskAt cfg bars u = true := by
        unfold HTF.htfMaskAt
        rw [h1, h2, h3, h4, h5, h6, h7]
        rfl
      simp [HTF.signalAt, hmask]
  refine ⟨hiff t, ?_⟩
  intro r hr hnn hmin
  unfold HTF.checkCurrentSignal at hr
  split at hr
  · cases hr
  · rename_i hne
    split at hr
    · rename_i hsig
      obtain rfl := Option.some.inj hr
      obtain ⟨hliq, -, -, -, -, -, hvc⟩ := (hiff (bars.length - 1)).1 hsig
      obtain ⟨mdv, adv, hmdv, hadv, hle⟩ := oleB_eq_true_iff.1 hliq
      obtain rfl : cfg.minDollarVolume = mdv := Option.some.inj hmdv
      obtain ⟨⟨hL1, hLt, hLlen⟩, hadvv⟩ := rollMeanAt_some_inv hadv
      rw [HTF.dollarVols, List.length_map] at hLlen
      have hsumpos : 0 < (windowTo (HTF.dollarVols bars) cfg.volumeLookback
          (bars.length - 1)).sum := by
        have hadvpos : 0 < adv := lt_of_lt_of_le hmin hle
        rw [hadvv] at hadvpos
        by_contra hnp
        push_neg at hnp
        have : (windowTo (HTF.dollarVols bars) cfg.volumeLookback (bars.length - 1)).sum /
            (cfg.volumeLookback : ℚ) ≤ 0 := by
          apply div_nonpos_of_nonpos_of_nonneg hnp
          positivity
        linarith
      have hwnn : ∀ x ∈ windowTo (HTF.dollarVols bars) cfg.volumeLookback
          (bars.length - 1), 0 ≤ x := by
        intro x hx
        obtain ⟨j, hj, hget⟩ := mem_window_iff.1 hx
        rw [HTF.dollarVols, List.get?_map] at hget
        rcases hgb : bars.get? (bars.length - 1 + 1 - cfg.volumeLookback + j) with _ | bj
        · rw [hgb] at hget
          cases hget
        · rw [hgb] at hget
          obtain rfl : bj.close * bj.volume = x := Option.some.inj hget
          obtain ⟨hv, hc⟩ := hnn bj (List.get?_mem hgb)
          exact mul_nonneg hc hv
      obtain ⟨x, hxmem, hxpos⟩ := exists_pos_of_sum_pos hwnn hsumpos
      obtain ⟨j, hj, hget⟩ := mem_window_iff.1 hxmem
      rw [HTF.dollarVols, List.get?_map] at hget
      rcases hgb : bars.get? (bars.length - 1 + 1 - cfg.volumeLookback + j) with _ | bj
      · rw [hgb] at hget
        cases hget
      · rw [hgb] at hget
        obtain rfl : bj.close * bj.volume = x := Option.some.inj hget
        have hvolpos : 0 < bj.volume := by
          obtain ⟨hv, hc⟩ := hnn bj (List.get?_mem hgb)
          rcases lt_or_eq_of_le hv with h | h
          · exact h
          · rw [← h, mul_zero] at hxpos
            exact absurd hxpos (lt_irrefl 0)
        have hvols_len : (bars.map (·.volume)).length = bars.length := List.length_map ..
        have havol : HTF.avgVolumeAt cfg bars (bars.length - 1) =
            some ((windowTo (bars.map (·.volume)) cfg.volumeLookback
              (bars.length - 1)).sum / (cfg.volumeLookback : ℚ)) := by
          rw [HTF.avgVolumeAt, rollMeanAt, if_pos]
          exact ⟨hL1, hLt, by rw [hvols_len]; exact hLlen⟩
        have hvmem : bj.volume ∈ windowTo (bars.map (·.volume)) cfg.volumeLookback
            (bars.length - 1) := by
          apply mem_window_iff.2
          refine ⟨j, hj, ?_⟩
          rw [List.get?_map, hgb]
          rfl
        have hvwnn : ∀ x ∈ windowTo (bars.map (·.volume)) cfg.volumeLookback
            (bars.length - 1), 0 ≤ x := by
          intro x hx
          obtain ⟨j2, hj2, hget2⟩ := mem_window_iff.1 hx
          rw [List.get?_map] at hget2
          rcases hgb2 : bars.get? (bars.length - 1 + 1 - cfg.volumeLookback + j2) with _ | bj2
          · rw [hgb2] at hget2
            cases hget2
          · rw [hgb2] at hget2
            obtain rfl : bj2.volume = x := Option.some.inj hget2
            exact (hnn bj2 (List.get?_mem hgb2)).1
        have havpos : 0 < (windowTo (bars.map (·.volume)) cfg.volumeLookback
            (bars.length - 1)).sum / (cfg.volumeLookback : ℚ) := by
          apply div_pos
          · exact lt_of_lt_of_le hvolpos (List.single_le_sum hvwnn _ hvmem)
          · exact_mod_cast hL1
        obtain ⟨vt, hvt⟩ : ∃ vt, volumeAt bars (bars.length - 1) = some vt := by
          rcases hgt : bars.get? (bars.length - 1) with _ | bt
          · exfalso
            rw [List.get?_eq_none] at hgt
            omega
          · exact ⟨bt.volume, by rw [volumeAt, hgt]; rfl⟩
        have hvcr : cfg.volumeBreakoutMultiplier ≤ vt /
            ((windowTo (bars.map (·.volume)) cfg.volumeLookback
              (bars.length - 1)).sum / (cfg.volumeLookback : ℚ)) := by
          unfold HTF.volumeConfirmationAt at hvc
          simp only [havol, hvt] at hvc
          rw [if_neg (ne_of_gt havpos)] at hvc
          exact of_decide_eq_true hvc
        refine ⟨vt / ((windowTo (bars.map (·.volume)) cfg.volumeLookback
          (bars.length - 1)).sum / (cfg.volumeLookback : ℚ)), ?_, hvcr⟩
        simp only [HTF.volumeRatioAt, havol, hvt]
        rw [if_neg (ne_of_gt havpos)]
    · cases hr

set_option maxRecDepth 4000 in
/-- Witness for C4 at a concrete input: on `htfBars` all seven filters
hold on bar 50, the signal fires, and the emitted record's volume ratio
meets the 1.5 multiplier (volume 30 against a trailing average of 20). -/
theorem c4_witness :
    ((∀ b ∈ htfBars, 0 ≤ b.volume ∧ 0 ≤ b.close) ∧ 0 < htfCfg.minDollarVolume) ∧
    HTF.signalAt htfCfg htfBars 50 = 1 ∧
    HTF.volumeConfirmationAt htfCfg htfBars 50 = true ∧
    (∃ r, HTF.checkCurrentSignal htfCfg htfBars = some r ∧
      ∃ v, r.volumeRatioField = some v ∧ htfCfg.volumeBreakoutMultiplier ≤ v) := by
  have hnn : ∀ b ∈ htfBars, 0 ≤ b.volume ∧ 0 ≤ b.close := by decide
  have hmin : 0 < htfCfg.minDollarVolume := by norm_num [htfCfg]
  have hsig : HTF.signalAt htfCfg htfBars 50 = 1 := by
    norm_num [HTF.signalAt, HTF.htfMaskAt, HTF.liquidityOkAt, HTF.above50maAt,
      HTF.strongPoleAt, HTF.nearHighsAt, HTF.tightAt, HTF.breakoutAt,
      HTF.volumeConfirmationAt, HTF.avgVolumeAt, HTF.avgDollarVolumeAt, HTF.high20At,
      HTF.closes, HTF.dollarVols, rollMeanAt, rollMaxAt, windowTo, listMax, smaAt, emaAt,
      emaList, emaFrom, closeAt, highAt, lowAt, volumeAt, oltB, oleB, htfCfg, htfBars,
      mkBarV, List.get?]
  have hne : htfBars ≠ [] := by simp [htfBars]
  have hlen : htfBars.length - 1 = 50 := by norm_num [htfBars]
  obtain ⟨r, hr⟩ : ∃ r, HTF.checkCurrentSignal htfCfg htfBars = some r := by
    unfold HTF.checkCurrentSignal
    rw [dif_neg hne, hlen, if_pos hsig]
    exact ⟨_, rfl⟩
  refine ⟨⟨hnn, hmin⟩, hsig,
    ((c4_htf_conjunction_of_filters htfCfg htfBars 50).1.mp hsig).2.2.2.2.2.2, ?_⟩
  exact ⟨r, hr, (c4_htf_conjunction_of_filters htfCfg htfBars 50).2 r hr hnn hmin⟩

set_option maxRecDepth 4000 in
/-- Witness for C10 at a concrete input: on `htfBars` the bar-50 signal
fires with entry 21 (the bar's high), stop 9 (the bar's low), and the
record's risk-per-share is their difference, non-negative. -/
theorem c10_witness :
    HTF.signalAt htfCfg htfBars 50 = 1 ∧
    (∃ b, htfBars.get? 50 = some b ∧ HTF.entryAt htfCfg htfBars 50 = some b.high ∧
      HTF.stopAt htfCfg htfBars 50 = some b.low) ∧
    (∃ r b, HTF.checkCurrentSignal htfCfg htfBars = some r ∧
      htfBars.get? (htfBars.length - 1) = some b ∧
      r.riskPerShare = some (b.high - b.low) ∧ 0 ≤ b.high - b.low) := by
  have hsig : HTF.signalAt htfCfg htfBars 50 = 1 := by
    norm_num [HTF.signalAt, HTF.htfMaskAt, HTF.liquidityOkAt, HTF.above50maAt,
      HTF.strongPoleAt, HTF.nearHighsAt, HTF.tightAt, HTF.breakoutAt,
      HTF.volumeConfirmationAt, HTF.avgVolumeAt, HTF.avgDollarVolumeAt, HTF.high20At,
      HTF.closes, HTF.dollarVols, rollMeanAt, rollMaxAt, windowTo, listMax, smaAt, emaAt,
      emaList, emaFrom, closeAt, highAt, lowAt, volumeAt, oltB, oleB, htfCfg, htfBars,
      mkBarV, List.get?]
  have hb : htfBars.get? 50 =
      some { date := 50, openPrice := 10, high := 21, low := 9, close := 20,
             volume := 30 } := by
    norm_num [htfBars, mkBarV, List.get?]
  have hne : htfBars ≠ [] := by simp [htfBars]
  have hlen : htfBars.length - 1 = 50 := by norm_num [htfBars]
  obtain ⟨r, hr⟩ : ∃ r, HTF.checkCurrentSignal htfCfg htfBars = some r := by
    unfold HTF.checkCurrentSignal
    rw [dif_neg hne, hlen, if_pos hsig]
    exact ⟨_, rfl⟩
  obtain ⟨hfst, hsnd⟩ := c10_htf_entry_is_high_stop_is_low htfCfg htfBars
  obtain ⟨hent, hstop⟩ := hfst 50 _ hb hsig
  obtain ⟨b2, hb2, hent2, hstop2, hrisk2, himp2⟩ := hsnd r hr
  have hble : b2.low ≤ b2.high := by
    rw [hlen] at hb2
    obtain rfl := Option.some.inj (hb2.symm.trans hb)
    norm_num
  exact ⟨hsig, ⟨_, hb, hent, hstop⟩, ⟨r, b2, hr, hb2, hrisk2, himp2 hble⟩⟩
